import Mathlib

/-!
Verification model of the workflow experiment engine
(lib/experiment_manager.py, lib/experiment_parts.py, lib/experiment_trace.py).

The engine walks a graph of parts (Step / Decision / Flow), keeps a
committed/staging pair of experiment-data dictionaries, records every
transition to a trace, and can replay a historical trace (rerun or
continue modes).  The definitions below are a shallow embedding of that
code: Python dicts become association lists, part implementations become
functions from the data store to an Except result (an exception is the
error case), and the run loop becomes a fuel-indexed recursion.
Wall-clock timestamps (datetime.now) are not observable by the engine
logic, so the engine-level trace entries omit them; the serialization
model for the trace file (further below) models timestamps explicitly.
-/
namespace Workflow

/-- JSON-like values: the experiment data values and part payloads are
arbitrary JSON-serializable data in the source. -/
inductive J where
  | null : J
  | bool (b : Bool) : J
  | num (n : Int) : J
  | str (s : String) : J
  | arr (xs : List J) : J
  | obj (fields : List (String × J)) : J

/-- The experiment data dictionary: a mapping from string keys to values,
modelled as an association list in insertion order (Python dict). -/
abbrev Data := List (String × J)

/-- Dictionary lookup (Python dict.get, returning None when absent). -/
def getData (d : Data) (k : String) : Option J :=
  match d with
  | [] => none
  | (k', v) :: rest => if k' = k then some v else getData rest k

/-- Dictionary update (Python dict assignment: existing keys keep their
position, new keys are appended). -/
def setData (d : Data) (k : String) (v : J) : Data :=
  match d with
  | [] => [(k, v)]
  | (k', v') :: rest => if k' = k then (k, v) :: rest else (k', v') :: setData rest k v

/-- COMMAND_NAMES from experiment_manager.py: special commands usable in
place of a part name. -/
def isCommand (s : String) : Prop := s = "done" ∨ s = "quit"

instance (s : String) : Decidable (isCommand s) := by
  unfold isCommand; infer_instance

/-- Models full_name.split with a dot separator taking the last element,
i.e. the suffix of the name after its last dot (the whole name when it
has no dot). -/
def lastComponent (s : String) : String :=
  String.mk ((s.toList.reverse.takeWhile (fun c => c != '.')).reverse)

/-- ExperimentManager._convert_to_short_name: extract the short part name
from a full part name; commands and None pass through unchanged. -/
def convertToShortName (full : Option String) : Option String :=
  match full with
  | none => none
  | some s => if isCommand s then some s else some (lastComponent s)

/-- ExperimentManager._convert_to_full_name: convert a short part name to
a full name by prefixing the current flow (the top of the flow stack);
None, commands, and names at top level pass through unchanged. -/
def convertToFullName (short : Option String) (flowStack : List String) : Option String :=
  let flowFullName := flowStack.getLastD ""
  match short with
  | none => none
  | some s =>
    if isCommand s ∨ flowFullName = "" then some s
    else some (flowFullName ++ "." ++ s)

/-!
## Trace entries as seen by the engine

One constructor per TraceEntry subclass of experiment_trace.py, carrying
the same fields in the same order, minus the wall-clock timestamp (the
engine logic never reads it).
-/
/-- Engine-level trace entry, one constructor per TraceEntry subclass. -/
inductive TEntry where
  | experimentBegin (experimentName : String) (runNumber : Nat) (experimentData : Data)
  | experimentEnd (experimentName : String) (runNumber : Nat)
  | atPart (partName : Option String)
  | errorE (partName : String) (errorMessage : String)
  | researcherDecision (nextPart : Option String)
  | stepE (stepName : String) (dataBefore dataAfter : Data) (partData : Option J)
  | decisionE (decisionName : String) (nextPart : Option String) (partData : Option J)
  | flowBegin (flowName : String) (firstPart : Option String) (partData : Option J)
  | flowEnd (flowName : String) (partData : Option J)
  | partAdd (fullName : String) (filePath : String) (rawConfig : J) (partCategory : String)
  | partRemove (fullName : String)
  | customE (eventType : String) (eventData : Option J)

/-- PartPathPiece of experiment_trace.py: one step of the path through
the experiment, the part name of an at_part entry plus any part_data
payload recorded by the part that ran there. -/
structure Piece where
  part_name : Option String
  part_data : Option J

instance : Inhabited Piece := ⟨⟨none, none⟩⟩

/-- The part_data payload carried by a step, decision, flow_begin or
flow_end entry (the entry kinds get_part_path reads part_data from). -/
def entryPartData : TEntry → Option (Option J)
  | .stepE _ _ _ pd => some pd
  | .decisionE _ _ pd => some pd
  | .flowBegin _ _ pd => some pd
  | .flowEnd _ pd => some pd
  | _ => none

/-- Is this entry a custom entry (get_part_path skips those when looking
for the part_data of the entry after an at_part entry). -/
def isCustom : TEntry → Bool
  | .customE _ _ => true
  | _ => false

/-- Find the part_data for an at_part entry: skip any custom entries,
then read part_data if the next entry is a step, decision, flow_begin or
flow_end entry (ExperimentTrace.get_part_path inner loop). -/
def pieceData : List TEntry → Option J
  | [] => none
  | e :: rest =>
    if isCustom e then pieceData rest
    else match entryPartData e with
      | some pd => pd
      | none => none

/-- ExperimentTrace.get_part_path: the ordered sequence of at_part names
in the trace, each with the part_data of the entry recorded for the part
that ran at that position. -/
def partPath : List TEntry → List Piece
  | [] => []
  | .atPart name :: rest => ⟨name, pieceData rest⟩ :: partPath rest
  | _ :: rest => partPath rest

/-- Just the at_part names of a trace, in order. -/
def visitedNames (trace : List TEntry) : List (Option String) :=
  trace.filterMap (fun e => match e with | .atPart n => some n | _ => none)

/-!
## Parts

A part implementation interacts with the engine only through the
Step/Decision/Flow contract of experiment_parts.py: it may read the
staging data (get_input / copy_experiment_data), a Step may write the
staging data (set_output), and each variant reports its route.  An
exception raised by the implementation is the error case of Except.
set_output exists on Step only, so a Decision or Flow body is a function
that cannot produce a new data store: this mirrors the source, where
calling set_output on a Decision or Flow fails immediately (the
attribute does not exist on those classes).
A successful body also reports the part_data payload it saved with
save_data_to_trace_entry (none when it saved nothing).
-/
/-- The behavior of a concrete part implementation, by variant. -/
inductive PartKind where
  | step (runStep : Data → Except String (Data × Option J))
  | decision (decideRoute : Data → Except String (Option String × Option J))
  | flow (beginFlow : Data → Except String (Option String × Option J))
         (endFlow : Data → Except String (Option J))

/-- A constructed part: its behavior plus the next_part routing table of
its PartConfig (route name to short destination name). -/
structure Part where
  kind : PartKind
  nextPart : List (String × String)

/-- Routing lookup: config.next_part.get(route) (None when missing). -/
def lookupRoute (np : List (String × String)) (route : String) : Option String :=
  match np with
  | [] => none
  | (r, d) :: rest => if r = route then some d else lookupRoute rest route

/-!
## Engine state and run loop
-/
/-- ExperimentMode of experiment_manager.py. -/
inductive EMode where
  | normal
  | rerun
  | continueMode
deriving DecidableEq

/-- The fixed context of one run: the constructed parts table, the
experiment identity, the run mode, the part path of the old trace
(empty in normal mode), and the researcher oracle.  The oracle models
_get_next_from_researcher: its answers are the validated inputs the
researcher would type, indexed by how many prompts happened so far. -/
structure Ctx where
  experimentName : String
  runNumber : Nat
  parts : List (String × Part)
  mode : EMode
  oldPath : List Piece
  researcher : Nat → String

/-- experiment_parts lookup (dict access). -/
def lookupPart (ctx : Ctx) (name : String) : Option Part :=
  match ctx.parts.find? (fun p => p.1 = name) with
  | some p => some p.2
  | none => none

/-- The mutable state of the run loop.  committed is
self.experiment_data; the staging copy (self.new_experiment_data) is
local to each part run and is modelled inside runPart.  asks counts the
researcher prompts issued so far and indexes the oracle. -/
structure LoopSt where
  committed : Data
  flowStack : List String
  trace : List TEntry
  asks : Nat
  pathIndex : Nat
  current : Option String

/-- Append one entry to the new trace (ExperimentTrace.record). -/
def pushE (st : LoopSt) (e : TEntry) : LoopSt :=
  { st with trace := st.trace ++ [e] }

/-- Result of one iteration of the while loop in ExperimentManager.run:
keep looping, break out of the loop, or abort with the path deviation
error (the RuntimeError raised when retracing diverges). -/
inductive IterOut where
  | proceed (st : LoopSt)
  | stopRun (st : LoopSt)
  | deviate (expected got : Option String) (st : LoopSt)

/-- Advance to the next part: increment the path index and convert the
short next name to a full name against the current flow stack (end of
the loop body, lines 143-145). -/
def advance (st : LoopSt) (next : Option String) : LoopSt :=
  { st with pathIndex := st.pathIndex + 1,
            current := convertToFullName next st.flowStack }

/-- ExperimentManager._run_part: copy committed data into staging, run
the dispatched contract method, record the matching entry and commit on
success; on any exception discard staging, record one error entry, and
resolve to the undecided next part (None).  The part is looked up in the
parts table; the run loop only calls this for names present there. -/
def runPart (ctx : Ctx) (nm : String) (st : LoopSt) : Option String × LoopSt :=
  match lookupPart ctx nm with
  | none => (none, st)
  | some p =>
    match p.kind with
    | .step runStep =>
      -- staging starts as a copy of committed (deepcopy)
      match runStep st.committed with
      | .ok (staging, pd) =>
        let next := lookupRoute p.nextPart ""
        (next, { st with
          trace := st.trace ++ [.stepE nm st.committed staging pd],
          committed := staging })
      | .error e => (none, pushE st (.errorE nm e))
    | .decision decideRoute =>
      match decideRoute st.committed with
      | .ok (route, pd) =>
        let next := match route with
          | none => none
          | some r => if isCommand r then some r else lookupRoute p.nextPart r
        -- committed is replaced by the unchanged staging copy
        (next, pushE st (.decisionE nm next pd))
      | .error e => (none, pushE st (.errorE nm e))
    | .flow beginFlow _ =>
      match beginFlow st.committed with
      | .ok (first, pd) =>
        (first, { st with
          flowStack := st.flowStack ++ [nm],
          trace := st.trace ++ [.flowBegin nm first pd] })
      | .error e => (none, pushE st (.errorE nm e))

/-- ExperimentManager._end_flow: with an empty flow stack the experiment
quits; otherwise the innermost flow is popped first, then end_flow runs:
on success a flow_end entry is recorded and the flow's default route is
followed, on an exception an error entry is recorded and the next part
is undecided.  The popped name always maps to a flow part in this model
(parts are only pushed by runPart and never removed); the fallback arm
mirrors the caught exception an ill-typed part would raise. -/
def endFlowStep (ctx : Ctx) (st : LoopSt) : Option String × LoopSt :=
  match st.flowStack.getLast? with
  | none => (some "quit", st)
  | some fname =>
    let st0 := { st with flowStack := st.flowStack.dropLast }
    match lookupPart ctx fname with
    | some p =>
      match p.kind with
      | .flow _ endFlow =>
        match endFlow st0.committed with
        | .ok pd => (lookupRoute p.nextPart "", pushE st0 (.flowEnd fname pd))
        | .error e => (none, pushE st0 (.errorE fname e))
      | _ => (none, pushE st0 (.errorE fname "not a flow"))
    | none => (none, pushE st0 (.errorE fname "missing part"))

/-- One researcher prompt (_get_researcher_decision): consume the next
oracle answer and count the prompt. -/
def askResearcher (ctx : Ctx) (st : LoopSt) : String × LoopSt :=
  (ctx.researcher st.asks, { st with asks := st.asks + 1 })

/-- The undecided-part branch of the run loop (lines 124-139): when the
current name is None or not a constructed part, reuse the old run's
researcher decision if the old path still has a later entry, otherwise
prompt the researcher; either way record a researcher_decision entry. -/
def undecidedStep (ctx : Ctx) (st : LoopSt) : IterOut :=
  if st.pathIndex + 1 < ctx.oldPath.length then
    let next := convertToShortName (ctx.oldPath.getD (st.pathIndex + 1) default).part_name
    .proceed (advance (pushE st (.researcherDecision next)) next)
  else
    let (v, st') := askResearcher ctx st
    .proceed (advance (pushE st' (.researcherDecision (some v))) (some v))

/-- One iteration of the while loop of ExperimentManager.run, after the
path deviation check has passed: record the at_part entry, then dispatch
on the current name (quit, done, undecided/unknown, or run the part). -/
def loopBody (ctx : Ctx) (st : LoopSt) : IterOut :=
  let st1 := pushE st (.atPart st.current)
  if st.current = some "quit" then
    if st1.pathIndex + 1 < ctx.oldPath.length then
      let next := convertToShortName (ctx.oldPath.getD (st1.pathIndex + 1) default).part_name
      .proceed (advance (pushE st1 (.researcherDecision next)) next)
    else if ctx.mode = .continueMode ∧ st1.pathIndex + 1 = ctx.oldPath.length then
      let (v, st2) := askResearcher ctx st1
      .proceed (advance (pushE st2 (.researcherDecision (some v))) (some v))
    else
      .stopRun st1
  else if st.current = some "done" then
    let (next, st2) := endFlowStep ctx st1
    .proceed (advance st2 next)
  else
    match st.current with
    | none => undecidedStep ctx st1
    | some nm =>
      if (lookupPart ctx nm).isSome then
        let (next, st2) := runPart ctx nm st1
        .proceed (advance st2 next)
      else
        undecidedStep ctx st1

/-- One iteration of the while loop including the path deviation check
(lines 79-85): while retracing, if the current index is inside the old
part path, the historical name must equal the live name about to be
visited, otherwise the run aborts before recording or running anything
at this position. -/
def loopIter (ctx : Ctx) (st : LoopSt) : IterOut :=
  match ctx.oldPath.get? st.pathIndex with
  | some p =>
    if p.part_name = st.current then loopBody ctx st
    else .deviate p.part_name st.current st
  | none => loopBody ctx st

/-- The teardown after the loop breaks: one _end_flow call per entry
still on the flow stack (LIFO), discarding the returned next name. -/
def teardownN (ctx : Ctx) : Nat → LoopSt → LoopSt
  | 0, st => st
  | n + 1, st => teardownN ctx n (endFlowStep ctx st).2

/-- Close all still-open flows and record the experiment_end entry
(lines 147-150). -/
def teardown (ctx : Ctx) (st : LoopSt) : LoopSt :=
  pushE (teardownN ctx st.flowStack.length st)
    (.experimentEnd ctx.experimentName ctx.runNumber)

/-- The outcome of driving the loop with a given amount of fuel: the
loop finished (broke out and tore down), aborted with the path deviation
error, or the fuel ran out (the model artifact for a loop still
running). -/
inductive RunResult where
  | finished (st : LoopSt)
  | deviated (expected got : Option String) (st : LoopSt)
  | fuelOut (st : LoopSt)

/-- Drive the while loop of ExperimentManager.run. -/
def runLoop (ctx : Ctx) : Nat → LoopSt → RunResult
  | 0, st => .fuelOut st
  | fuel + 1, st =>
    match loopIter ctx st with
    | .proceed st' => runLoop ctx fuel st'
    | .stopRun st' => .finished (teardown ctx st')
    | .deviate e g st' => .deviated e g st'

/-!
## Part construction and the full run

ExperimentManager.run first calls _begin_experiment_run, which opens the
new trace file (writing its version header), constructs every configured
part (recording a part_add entry per part, and turning any construction
failure into a ConfigError), and records the experiment_begin entry.
Only then is the with-statement over the new trace entered, which
guarantees finalization of the trace file for exceptions raised inside
it.  The registry maps type names to part behaviors; a type name absent
from the registry makes the part construction fail (the None lookup
blows up inside _add_part and is re-raised as ConfigError).
-/
/-- The flattened configuration record for one part (PartConfig fields
the engine reads). -/
structure PartSpec where
  fullName : String
  typeName : String
  filePath : String
  raw : J
  nextPart : List (String × String)

/-- The part-type registry: type name to the behavior the constructed
part will have. -/
abbrev Registry := List (String × PartKind)

/-- The category string recorded in a part_add entry, from the part
class (issubclass checks in _add_part). -/
def categoryOf : PartKind → String
  | .step _ => "step"
  | .decision _ => "decision"
  | .flow _ _ => "flow"

/-- Replace or add a constructed part (dict assignment in _add_part:
a part with the same name is replaced). -/
def setPart (ps : List (String × Part)) (nm : String) (p : Part) : List (String × Part) :=
  match ps with
  | [] => [(nm, p)]
  | (nm', p') :: rest =>
    if nm' = nm then (nm, p) :: rest else (nm', p') :: setPart rest nm p

/-- ExperimentManager._construct_parts: construct each configured part
in order, recording one part_add entry per success; a type name missing
from the registry fails the whole construction with a ConfigError. -/
def constructParts (reg : Registry) :
    List PartSpec → Except String (List (String × Part) × List TEntry)
  | [] => .ok ([], [])
  | pc :: rest =>
    match reg.find? (fun r => r.1 = pc.typeName) with
    | none => .error ("Failed to add part " ++ pc.fullName)
    | some (_, kind) =>
      match constructParts reg rest with
      | .error e => .error e
      | .ok (parts, entries) =>
        .ok (setPart parts pc.fullName ⟨kind, pc.nextPart⟩,
             .partAdd pc.fullName pc.filePath pc.raw (categoryOf kind) :: entries)

/-- The experiment configuration the full run consumes (the parsed
ExperimentConfig fields the engine reads). -/
structure Config where
  experimentName : String
  initialPartName : String
  initialValues : Data
  partSpecs : List PartSpec
  registry : Registry

/-- The trace output file state: opened when _build_output_dirs created
it and wrote the version header, finalized and closed when
ExperimentTrace.__exit__ ran (closing brackets written, file closed). -/
structure FileSt where
  opened : Bool
  finalized : Bool
  closed : Bool
deriving DecidableEq

/-- The outcome of one full ExperimentManager.run call. -/
inductive RunOutcome where
  | ok (st : LoopSt)
  | configError (msg : String)
  | pathDeviation (expected got : Option String) (st : LoopSt)
  | badArgs
  | stillRunning (st : LoopSt)

/-- The run context built by _begin_experiment_run from a constructed
parts table. -/
def mkCtx (cfg : Config) (mode : EMode) (runNumber : Nat)
    (oldPath : List Piece) (researcher : Nat → String)
    (parts : List (String × Part)) : Ctx :=
  ⟨cfg.experimentName, runNumber, parts, mode, oldPath, researcher⟩

/-- The initial loop state after _begin_experiment_run: fresh stack and
prompt counter, the initial values committed, the trace holding the
part_add entries followed by the experiment_begin entry, and the run
starting at the configured initial part. -/
def mkInitSt (cfg : Config) (runNumber : Nat) (addEntries : List TEntry) : LoopSt :=
  { committed := cfg.initialValues, flowStack := [],
    trace := addEntries ++
      [.experimentBegin cfg.experimentName runNumber cfg.initialValues],
    asks := 0, pathIndex := 0, current := some cfg.initialPartName }

/-- The body of ExperimentManager.run after the mode/old-trace checks:
the trace file is already open with its header written; part
construction failure is raised before the with-statement over the new
trace (file left open, never finalized); otherwise the loop runs with
finalization guaranteed on both loop exits. -/
def runFromConstruction (cfg : Config) (mode : EMode) (runNumber : Nat)
    (oldPath : List Piece) (researcher : Nat → String)
    (fuel : Nat) : FileSt × RunOutcome :=
  match constructParts cfg.registry cfg.partSpecs with
  | .error e => (⟨true, false, false⟩, .configError e)
  | .ok (parts, addEntries) =>
    match runLoop (mkCtx cfg mode runNumber oldPath researcher parts) fuel
        (mkInitSt cfg runNumber addEntries) with
    | .finished s => (⟨true, true, true⟩, .ok s)
    | .deviated e g s => (⟨true, true, true⟩, .pathDeviation e g s)
    | .fuelOut s => (⟨true, false, false⟩, .stillRunning s)

def runExperiment (cfg : Config) (mode : EMode) (runNumber : Nat)
    (oldTrace : Option (List Piece)) (researcher : Nat → String)
    (fuel : Nat) : FileSt × RunOutcome :=
  match mode, oldTrace with
  | .normal, some _ => (⟨false, false, false⟩, .badArgs)
  | .rerun, none => (⟨false, false, false⟩, .badArgs)
  | .continueMode, none => (⟨false, false, false⟩, .badArgs)
  | _, _ => runFromConstruction cfg mode runNumber (oldTrace.getD []) researcher fuel

/-!
## C7: trace file finalization

The trace file is opened (header written) by _build_output_dirs inside
_begin_experiment_run, which then constructs the parts.  The
with-statement over the new trace only starts after
_begin_experiment_run returns, so a ConfigError thrown while
constructing parts escapes with the file open but never finalized; the
guarantee holds only for exit paths of the with-block itself (normal
completion and exceptions raised by the loop, such as path deviation).
-/
/-- A configuration whose single part names a type missing from the
registry: _add_part fails and _construct_parts raises ConfigError after
the trace file was opened. -/
def c7cfg : Config :=
  { experimentName := "exp", initialPartName := "a", initialValues := [],
    partSpecs := [⟨"a", "missingT", "f.toml", .null, []⟩],
    registry := [] }

/-!
## C1: failure isolation of a raising part
-/
/-- The dispatched contract method of the part raises with message e
when run on the data store d. -/
def raisesWith (k : PartKind) (d : Data) (e : String) : Prop :=
  match k with
  | .step run => run d = .error e
  | .decision dec => dec d = .error e
  | .flow beg _ => beg d = .error e

/-!
## C5: continue mode replays history before the last recorded position
-/
/-- The prompt counter of the state carried by an iteration outcome. -/
def asksOf : IterOut → Nat
  | .proceed st => st.asks
  | .stopRun st => st.asks
  | .deviate _ _ st => st.asks

/-- A concrete one-piece history ending in quit, for the C5 witness. -/
def c5ctx : Ctx :=
  ⟨"e", 1, [], .continueMode, [⟨some "quit", none⟩], fun _ => "go"⟩

/-- The loop state sitting at that quit, for the C5 witness. -/
def c5st : LoopSt :=
  { committed := [], flowStack := [], trace := [], asks := 0,
    pathIndex := 0, current := some "quit" }

/-!
## C6: the flow-stack balance invariant

The claimed invariant: at every point of the run, the flow stack depth
equals the number of flow_begin entries minus the number of flow_end
entries in the trace so far.  The code pops the flow stack before
calling end_flow, so a raising end_flow pops without recording a
flow_end entry and the invariant breaks; it does hold for runs in which
no end_flow call raises.
-/
/-- Number of flow_begin entries in a trace. -/
def countFlowBegin (t : List TEntry) : Nat :=
  t.countP (fun e => match e with | .flowBegin _ _ _ => true | _ => false)

/-- Number of flow_end entries in a trace. -/
def countFlowEnd (t : List TEntry) : Nat :=
  t.countP (fun e => match e with | .flowEnd _ _ => true | _ => false)

/-- The balanced-nesting property of one engine state: flow stack depth
equals flow_begin count minus flow_end count of the trace so far
(phrased additively to stay in Nat). -/
def FBInv (st : LoopSt) : Prop :=
  st.flowStack.length + countFlowEnd st.trace = countFlowBegin st.trace

instance (st : LoopSt) : Decidable (FBInv st) := by
  unfold FBInv; infer_instance

/-- The states reached during teardown: the state after each _end_flow
call, then the state after the experiment_end entry. -/
def teardownTraj (ctx : Ctx) : Nat → LoopSt → List LoopSt
  | 0, st => [pushE st (.experimentEnd ctx.experimentName ctx.runNumber)]
  | n + 1, st =>
    let st' := (endFlowStep ctx st).2
    st' :: teardownTraj ctx n st'

/-- Every engine state along a run: the state before each loop
iteration, then each teardown state once the loop breaks. -/
def trajLoop (ctx : Ctx) : Nat → LoopSt → List LoopSt
  | 0, st => [st]
  | fuel + 1, st =>
    st :: (match loopIter ctx st with
      | .proceed st' => trajLoop ctx fuel st'
      | .stopRun st' => st' :: teardownTraj ctx st'.flowStack.length st'
      | .deviate _ _ st' => [st'])

/-- The flow part backing "f" in the counterexample run: its begin
succeeds, its end_flow raises. -/
def c6parts : List (String × Part) :=
  [("f", ⟨.flow (fun _ => .ok (some "s", none)) (fun _ => .error "endboom"),
     [("", "quit")]⟩),
   ("f.s", ⟨.step (fun d => .ok (d, none)), [("", "done")]⟩)]

/-- Counterexample context: normal run of the two-part graph whose flow
raises in end_flow. -/
def c6ctx : Ctx := ⟨"exp", 1, c6parts, .normal, [], fun _ => "quit"⟩

/-- Counterexample initial state. -/
def c6init : LoopSt :=
  { committed := [], flowStack := [], trace := [.experimentBegin "exp" 1 []],
    asks := 0, pathIndex := 0, current := some "f" }

/-- The context has no flow part whose end_flow can raise. -/
def NoEndFlowErrors (ctx : Ctx) : Prop :=
  ∀ nm p, lookupPart ctx nm = some p →
    ∀ beg fin, p.kind = .flow beg fin → ∀ d, ∃ pd, fin d = .ok pd

/-- Every name on the flow stack is a constructed flow part (true of
reachable states: only runPart pushes, and it pushes the flow it just
ran; parts are never removed in a run). -/
def StackOk (ctx : Ctx) (st : LoopSt) : Prop :=
  ∀ nm ∈ st.flowStack, ∃ p beg fin, lookupPart ctx nm = some p ∧ p.kind = .flow beg fin

/-- The flow-balance invariant holding of the state inside an iteration
outcome. -/
def InvOut (ctx : Ctx) : IterOut → Prop
  | .proceed st => FBInv st ∧ StackOk ctx st
  | .stopRun st => FBInv st ∧ StackOk ctx st
  | .deviate _ _ st => FBInv st ∧ StackOk ctx st

/-- Parts for the C6 witness: the same graph shape but the end_flow
succeeds. -/
def c6goodParts : List (String × Part) :=
  [("f", ⟨.flow (fun _ => .ok (some "s", none)) (fun _ => .ok none),
     [("", "quit")]⟩),
   ("f.s", ⟨.step (fun d => .ok (d, none)), [("", "done")]⟩)]

/-- Witness context for the amended C6. -/
def c6goodCtx : Ctx := ⟨"exp", 1, c6goodParts, .normal, [], fun _ => "quit"⟩

/-!
## C2: committed data flows intact from step to step

The data visible to a step when it starts running is the committed
store, which runPart copies into staging and records as data_before of
the step entry; on success data_after becomes the committed store.  So
the claim is the chain property of the final trace: for any two step
entries with no step entry between them, the later data_before equals
the earlier data_after.
-/
/-- The (data_before, data_after) snapshots of the step entries of a
trace, in order. -/
def stepsOf (t : List TEntry) : List (Data × Data) :=
  t.filterMap (fun e => match e with | .stepE _ b a _ => some (b, a) | _ => none)

/-- The chain property: every step entry starts from the data the
previous step entry ended with. -/
def StepChain (t : List TEntry) : Prop :=
  List.Chain' (fun p q => q.1 = p.2) (stepsOf t)

/-- The run-loop invariant for C2: the trace is a chain so far, and the
committed store equals the data_after of the last step entry (when one
exists). -/
def StepInv (st : LoopSt) : Prop :=
  StepChain st.trace ∧
  ∀ pr, (stepsOf st.trace).getLast? = some pr → st.committed = pr.2

/-- StepInv holding of the state inside an iteration outcome. -/
def StepOut : IterOut → Prop
  | .proceed st => StepInv st
  | .stopRun st => StepInv st
  | .deviate _ _ st => StepInv st

/-- Parts for the C2 witness: two steps writing the same key in
sequence, with a decision in between. -/
def c2reg : Registry :=
  [("w1", .step (fun d => .ok (setData d "x" (.num 1), none))),
   ("w2", .step (fun d => .ok (setData d "x" (.num 2), none))),
   ("decT", .decision (fun _ => .ok (some "go", none)))]

/-- Config for the C2 witness. -/
def c2cfg : Config :=
  { experimentName := "exp", initialPartName := "a", initialValues := [],
    partSpecs := [
      ⟨"a", "w1", "f.toml", .null, [("", "d")]⟩,
      ⟨"d", "decT", "f.toml", .null, [("go", "b")]⟩,
      ⟨"b", "w2", "f.toml", .null, [("", "quit")]⟩],
    registry := c2reg }

/-!
## C8: the four-node scenario trace
-/
/-- Registry for the C8 scenario: a do-nothing step type and a decision
type answering the go route. -/
def c8reg : Registry :=
  [("stepT", .step (fun d => .ok (d, none))),
   ("decT", .decision (fun _ => .ok (some "go", none)))]

/-- The C8 scenario configuration: entry Step start routing to Decision
ask, which routes go to Step b, which routes to quit. -/
def c8cfg : Config :=
  { experimentName := "exp", initialPartName := "start", initialValues := [],
    partSpecs := [
      ⟨"start", "stepT", "f.toml", .null, [("", "ask")]⟩,
      ⟨"ask", "decT", "f.toml", .null, [("go", "b")]⟩,
      ⟨"b", "stepT", "f.toml", .null, [("", "quit")]⟩],
    registry := c8reg }

/-- The eight entries the claim expects the run to produce. -/
def c8claimed : List TEntry :=
  [.atPart (some "start"), .stepE "start" [] [] none, .atPart (some "ask"),
   .decisionE "ask" (some "b") none, .atPart (some "b"), .stepE "b" [] [] none,
   .atPart (some "quit"), .experimentEnd "exp" 1]

/-- The scenario run, as one value. -/
def c8run : FileSt × RunOutcome :=
  runExperiment c8cfg .normal 1 none (fun _ => "quit") 20

/-- The trace carried by a completed outcome (empty otherwise). -/
def traceOf : RunOutcome → List TEntry
  | .ok s => s.trace
  | _ => []

/-!
## C3: rerun replays a normal trace

The rerun consumes the part path of the old trace.  Since part
implementations in this model are deterministic functions of the data
store, a rerun from the same configuration retraces the same states;
the simulation below makes that precise: at every loop iteration the
rerun state agrees with the normal-run state on the committed data, the
flow stack and the current name, the deviation check passes, and where
the normal run prompted the researcher the rerun replays the historical
choice instead.
-/
/-- The at_part names the run will visit from a given state on (the
name visited by each iteration until the loop stops). -/
def futureVisits (ctx : Ctx) : Nat → LoopSt → List (Option String)
  | 0, _ => []
  | fuel + 1, st =>
    match loopIter ctx st with
    | .proceed st' => st.current :: futureVisits ctx fuel st'
    | .stopRun _ => [st.current]
    | .deviate _ _ _ => []

/-- A valid researcher oracle: every answer is a reserved command or a
nonempty dot-free short name (the validation loop of
_get_next_from_researcher only accepts such answers). -/
def ValidOracle (r : Nat → String) : Prop :=
  ∀ n, isCommand (r n) ∨ ('.' ∉ (r n).toList ∧ r n ≠ "")

/-- The part variants whose public contract has no output-write
primitive (set_output exists on Step only). -/
def routeOnly : PartKind → Prop
  | .step _ => False
  | .decision _ => True
  | .flow _ _ => True

/-!
## C9: trace entry JSON round trip

Model of the experiment_trace.py serialization: ExperimentTrace.record
dumps the entry dict (attribute order: timestamp, event, then the
subclass fields) with the timestamp rendered by datetime.isoformat;
_parse_input_trace reads the timestamp with datetime.fromisoformat and
rebuilds the entry by its event discriminator, failing on unknown
events.  Timestamps are naive datetimes; isoformat prints
YYYY-MM-DDTHH:MM:SS and appends .ffffff exactly when the microsecond
field is nonzero, and fromisoformat inverts that.
-/
/-- A naive datetime as datetime.now produces it. -/
structure DateTime where
  year : Nat
  month : Nat
  day : Nat
  hour : Nat
  minute : Nat
  second : Nat
  microsecond : Nat

/-- The field ranges any real datetime satisfies (wide enough for the
zero-padded rendering to be invertible). -/
def ValidDT (dt : DateTime) : Prop :=
  dt.year < 10000 ∧ dt.month < 100 ∧ dt.day < 100 ∧ dt.hour < 100 ∧
  dt.minute < 100 ∧ dt.second < 100 ∧ dt.microsecond < 1000000

/-- One decimal digit as a character. -/
def dchar (d : Nat) : Char := Char.ofNat (48 + d)

/-- The value of a decimal digit character. -/
def dval (c : Char) : Option Nat :=
  if c.isDigit then some (c.toNat - 48) else none

/-- Two-digit zero-padded rendering (for n below 100). -/
def pad2 (n : Nat) : List Char := [dchar (n / 10), dchar (n % 10)]

/-- Four-digit zero-padded rendering (for n below 10000). -/
def pad4 (n : Nat) : List Char := pad2 (n / 100) ++ pad2 (n % 100)

/-- Six-digit zero-padded rendering (for n below 1000000). -/
def pad6 (n : Nat) : List Char := pad2 (n / 10000) ++ pad2 (n / 100 % 100) ++ pad2 (n % 100)

/-- Read two decimal digits. -/
def read2 : List Char → Option (Nat × List Char)
  | a :: b :: rest =>
    match dval a, dval b with
    | some x, some y => some (x * 10 + y, rest)
    | _, _ => none
  | _ => none

/-- Read four decimal digits. -/
def read4 (l : List Char) : Option (Nat × List Char) :=
  match read2 l with
  | some (a, l1) =>
    match read2 l1 with
    | some (b, l2) => some (a * 100 + b, l2)
    | none => none
  | none => none

/-- Read six decimal digits. -/
def read6 (l : List Char) : Option (Nat × List Char) :=
  match read2 l with
  | some (a, l1) =>
    match read2 l1 with
    | some (b, l2) =>
      match read2 l2 with
      | some (c, l3) => some (a * 10000 + b * 100 + c, l3)
      | none => none
    | none => none
  | none => none

/-- Consume one expected separator character. -/
def expectC (c : Char) : List Char → Option (List Char)
  | x :: rest => if x = c then some rest else none
  | [] => none

/-- datetime.isoformat as a character list: the fraction part appears
exactly when the microsecond is nonzero. -/
def isoformatL (dt : DateTime) : List Char :=
  pad4 dt.year ++ '-' :: pad2 dt.month ++ '-' :: pad2 dt.day ++
  'T' :: pad2 dt.hour ++ ':' :: pad2 dt.minute ++ ':' :: pad2 dt.second ++
  (if dt.microsecond = 0 then [] else '.' :: pad6 dt.microsecond)

/-- datetime.isoformat. -/
def isoformat (dt : DateTime) : String := String.mk (isoformatL dt)

/-- datetime.fromisoformat on the formats isoformat produces. -/
def fromisoformatL (l : List Char) : Option DateTime :=
  match read4 l with
  | some (y, l1) =>
    match expectC '-' l1 with
    | some l2 =>
      match read2 l2 with
      | some (mo, l3) =>
        match expectC '-' l3 with
        | some l4 =>
          match read2 l4 with
          | some (d, l5) =>
            match expectC 'T' l5 with
            | some l6 =>
              match read2 l6 with
              | some (h, l7) =>
                match expectC ':' l7 with
                | some l8 =>
                  match read2 l8 with
                  | some (mi, l9) =>
                    match expectC ':' l9 with
                    | some l10 =>
                      match read2 l10 with
                      | some (sec, l11) =>
                        match l11 with
                        | [] => some ⟨y, mo, d, h, mi, sec, 0⟩
                        | '.' :: l12 =>
                          match read6 l12 with
                          | some (us, l13) =>
                            if l13 = [] then some ⟨y, mo, d, h, mi, sec, us⟩
                            else none
                          | none => none
                        | _ => none
                      | none => none
                    | none => none
                  | none => none
                | none => none
              | none => none
            | none => none
          | none => none
        | none => none
      | none => none
    | none => none
  | none => none

/-- datetime.fromisoformat. -/
def fromisoformat (s : String) : Option DateTime := fromisoformatL s.toList

/-- The twelve trace entry variants of experiment_trace.py with their
fields.  Nullable dict fields (part_data, event_data) and nullable
string fields (part_name of at_part, next_part, first_part) are
Options: the engine records an at_part entry with a null part name on
every failure and undecided path (the current name is None there), and
the reader accepts it. -/
inductive TraceEntryS where
  | experimentBegin (ts : DateTime) (experiment_name : String)
      (run_number : Int) (experiment_data : Data) : TraceEntryS
  | experimentEnd (ts : DateTime) (experiment_name : String)
      (run_number : Int) : TraceEntryS
  | atPart (ts : DateTime) (part_name : Option String) : TraceEntryS
  | error (ts : DateTime) (part_name : String)
      (error_message : String) : TraceEntryS
  | researcherDecision (ts : DateTime) (next_part : Option String) : TraceEntryS
  | step (ts : DateTime) (step_name : String) (data_before : Data)
      (data_after : Data) (part_data : Option Data) : TraceEntryS
  | decision (ts : DateTime) (decision_name : String)
      (next_part : Option String) (part_data : Option Data) : TraceEntryS
  | flowBegin (ts : DateTime) (flow_name : String)
      (first_part : Option String) (part_data : Option Data) : TraceEntryS
  | flowEnd (ts : DateTime) (flow_name : String)
      (part_data : Option Data) : TraceEntryS
  | partAdd (ts : DateTime) (full_name : String) (file_path : String)
      (raw_config : Data) (part_category : String) : TraceEntryS
  | partRemove (ts : DateTime) (full_name : String) : TraceEntryS
  | custom (ts : DateTime) (event_type : String)
      (event_data : Option Data) : TraceEntryS

/-- A nullable dict attribute as json.dump writes it. -/
def optJ : Option Data → J
  | none => J.null
  | some d => J.obj d

/-- A nullable string attribute as json.dump writes it. -/
def strOptJ : Option String → J
  | none => J.null
  | some s => J.str s

/-- ExperimentTrace.record serialization of one entry: the attribute
dict in assignment order (timestamp, event, then the subclass fields),
with the timestamp replaced by its isoformat rendering. -/
def entryToJson : TraceEntryS → Data
  | .experimentBegin ts en rn ed =>
    [("timestamp", J.str (isoformat ts)), ("event", J.str "experiment_begin"),
     ("experiment_name", J.str en), ("run_number", J.num rn),
     ("experiment_data", J.obj ed)]
  | .experimentEnd ts en rn =>
    [("timestamp", J.str (isoformat ts)), ("event", J.str "experiment_end"),
     ("experiment_name", J.str en), ("run_number", J.num rn)]
  | .atPart ts pn =>
    [("timestamp", J.str (isoformat ts)), ("event", J.str "at_part"),
     ("part_name", strOptJ pn)]
  | .error ts pn msg =>
    [("timestamp", J.str (isoformat ts)), ("event", J.str "error"),
     ("part_name", J.str pn), ("error_message", J.str msg)]
  | .researcherDecision ts np =>
    [("timestamp", J.str (isoformat ts)),
     ("event", J.str "researcher_decision"), ("next_part", strOptJ np)]
  | .step ts sn db da pd =>
    [("timestamp", J.str (isoformat ts)), ("event", J.str "step"),
     ("step_name", J.str sn), ("data_before", J.obj db),
     ("data_after", J.obj da), ("part_data", optJ pd)]
  | .decision ts dn np pd =>
    [("timestamp", J.str (isoformat ts)), ("event", J.str "decision"),
     ("decision_name", J.str dn), ("next_part", strOptJ np),
     ("part_data", optJ pd)]
  | .flowBegin ts fn fp pd =>
    [("timestamp", J.str (isoformat ts)), ("event", J.str "flow_begin"),
     ("flow_name", J.str fn), ("first_part", strOptJ fp),
     ("part_data", optJ pd)]
  | .flowEnd ts fn pd =>
    [("timestamp", J.str (isoformat ts)), ("event", J.str "flow_end"),
     ("flow_name", J.str fn), ("part_data", optJ pd)]
  | .partAdd ts fn fp rc pc =>
    [("timestamp", J.str (isoformat ts)), ("event", J.str "part_add"),
     ("full_name", J.str fn), ("file_path", J.str fp),
     ("raw_config", J.obj rc), ("part_category", J.str pc)]
  | .partRemove ts fn =>
    [("timestamp", J.str (isoformat ts)), ("event", J.str "part_remove"),
     ("full_name", J.str fn)]
  | .custom ts et ed =>
    [("timestamp", J.str (isoformat ts)), ("event", J.str "custom"),
     ("event_type", J.str et), ("event_data", optJ ed)]

/-- A required string field lookup. -/
def asStr : Option J → Option String
  | some (J.str s) => some s
  | _ => none

/-- A required integer field lookup. -/
def asInt : Option J → Option Int
  | some (J.num n) => some n
  | _ => none

/-- A required dict field lookup. -/
def asObj : Option J → Option Data
  | some (J.obj d) => some d
  | _ => none

/-- A required nullable string field lookup. -/
def asStrO : Option J → Option (Option String)
  | some J.null => some none
  | some (J.str s) => some (some s)
  | _ => none

/-- A required nullable dict field lookup (event_data). -/
def asObjN : Option J → Option (Option Data)
  | some J.null => some none
  | some (J.obj d) => some (some d)
  | _ => none

/-- An optional nullable dict field lookup (dict.get on part_data:
an absent key or a null value both read back as None). -/
def asObjO : Option J → Option (Option Data)
  | none => some none
  | some J.null => some none
  | some (J.obj d) => some (some d)
  | _ => none

/-- One entry of _parse_input_trace: read the timestamp with
fromisoformat, then rebuild the entry from its event discriminator; a
missing or ill-typed field, a bad timestamp, a disallowed part_category
(the PartAddEntry constructor validates it against the step, decision
and flow categories) or an unknown event fails the parse. -/
def parseEntry (e : Data) : Option TraceEntryS :=
  match asStr (getData e "timestamp") with
  | none => none
  | some tss =>
  match fromisoformat tss with
  | none => none
  | some ts =>
  match asStr (getData e "event") with
  | none => none
  | some ev =>
  if ev = "experiment_begin" then
    match asStr (getData e "experiment_name"),
        asInt (getData e "run_number"),
        asObj (getData e "experiment_data") with
    | some en, some rn, some ed => some (.experimentBegin ts en rn ed)
    | _, _, _ => none
  else if ev = "experiment_end" then
    match asStr (getData e "experiment_name"),
        asInt (getData e "run_number") with
    | some en, some rn => some (.experimentEnd ts en rn)
    | _, _ => none
  else if ev = "at_part" then
    match asStrO (getData e "part_name") with
    | some pn => some (.atPart ts pn)
    | none => none
  else if ev = "error" then
    match asStr (getData e "part_name"),
        asStr (getData e "error_message") with
    | some pn, some msg => some (.error ts pn msg)
    | _, _ => none
  else if ev = "researcher_decision" then
    match asStrO (getData e "next_part") with
    | some np => some (.researcherDecision ts np)
    | none => none
  else if ev = "step" then
    match asStr (getData e "step_name"), asObj (getData e "data_before"),
        asObj (getData e "data_after"), asObjO (getData e "part_data") with
    | some sn, some db, some da, some pd => some (.step ts sn db da pd)
    | _, _, _, _ => none
  else if ev = "decision" then
    match asStr (getData e "decision_name"),
        asStrO (getData e "next_part"),
        asObjO (getData e "part_data") with
    | some dn, some np, some pd => some (.decision ts dn np pd)
    | _, _, _ => none
  else if ev = "flow_begin" then
    match asStr (getData e "flow_name"),
        asStrO (getData e "first_part"),
        asObjO (getData e "part_data") with
    | some fn, some fp, some pd => some (.flowBegin ts fn fp pd)
    | _, _, _ => none
  else if ev = "flow_end" then
    match asStr (getData e "flow_name"),
        asObjO (getData e "part_data") with
    | some fn, some pd => some (.flowEnd ts fn pd)
    | _, _ => none
  else if ev = "part_add" then
    match asStr (getData e "full_name"), asStr (getData e "file_path"),
        asObj (getData e "raw_config"),
        asStr (getData e "part_category") with
    | some fn, some fp, some rc, some pc =>
      if pc = "step" ∨ pc = "decision" ∨ pc = "flow" then
        some (.partAdd ts fn fp rc pc)
      else none
    | _, _, _, _ => none
  else if ev = "part_remove" then
    match asStr (getData e "full_name") with
    | some fn => some (.partRemove ts fn)
    | none => none
  else if ev = "custom" then
    match asStr (getData e "event_type"),
        asObjN (getData e "event_data") with
    | some et, some ed => some (.custom ts et ed)
    | _, _ => none
  else none

/-- The timestamp of an entry. -/
def tsOf : TraceEntryS → DateTime
  | .experimentBegin ts _ _ _ => ts
  | .experimentEnd ts _ _ => ts
  | .atPart ts _ => ts
  | .error ts _ _ => ts
  | .researcherDecision ts _ => ts
  | .step ts _ _ _ _ => ts
  | .decision ts _ _ _ => ts
  | .flowBegin ts _ _ _ => ts
  | .flowEnd ts _ _ => ts
  | .partAdd ts _ _ _ _ => ts
  | .partRemove ts _ => ts
  | .custom ts _ _ => ts

/-- Part categories the PartAddEntry constructor accepts. -/
def catOk : TraceEntryS → Prop
  | .partAdd _ _ _ _ pc => pc = "step" ∨ pc = "decision" ∨ pc = "flow"
  | _ => True

/-- A well-formed entry: its timestamp has the ranges of a real
datetime, and a part_add entry holds an allowed category (entries the
writer can record always satisfy this). -/
def WFEntry (e : TraceEntryS) : Prop := ValidDT (tsOf e) ∧ catOk e

/-- A concrete step entry with a nonzero microsecond and a payload. -/
def c9ent : TraceEntryS :=
  .step ⟨2024, 5, 17, 12, 30, 45, 123456⟩ "s" [("k", J.num 1)]
    [("k", J.num 2)] (some [("p", J.bool true)])

/-- A concrete at_part entry with a null part name, as the engine
records after a failed or undecided part. -/
def c9entNull : TraceEntryS := .atPart ⟨2024, 5, 17, 12, 30, 46, 0⟩ none

theorem takeWhile_append_stop {l₁ l₂ : List Char}
    (h : ∀ c ∈ l₁, c ≠ '.') :
    (l₁ ++ '.' :: l₂).takeWhile (fun c => c != '.') = l₁ := by
  induction l₁ with
  | nil => simp [List.takeWhile_cons]
  | cons c rest ih =>
    have hc : c ≠ '.' := h c (by simp)
    have ih' := ih (fun c hcm => h c (by simp [hcm]))
    simp [List.takeWhile_cons, hc, ih']

theorem takeWhile_of_all_ne {l : List Char}
    (h : ∀ c ∈ l, c ≠ '.') :
    l.takeWhile (fun c => c != '.') = l := by
  induction l with
  | nil => rfl
  | cons c rest ih =>
    have hc : c ≠ '.' := h c (by simp)
    have ih' := ih (fun c hcm => h c (by simp [hcm]))
    simp [List.takeWhile_cons, hc, ih']

theorem string_mk_toList (s : String) : String.mk s.toList = s := by
  cases s; rfl

theorem string_toList_append (s t : String) :
    (s ++ t).toList = s.toList ++ t.toList := by
  cases s; cases t; rfl

/-- Round trip of the name conversions: a valid researcher answer (a
command, or a nonempty dot-free short name) survives full-name conversion
followed by short-name extraction, for any flow stack. -/
theorem shortName_fullName (v : String) (stack : List String)
    (hv : isCommand v ∨ ('.' ∉ v.toList ∧ v ≠ "")) :
    convertToShortName (convertToFullName (some v) stack) = some v := by
  rcases hv with hc | ⟨hdot, _⟩
  · simp [convertToFullName, convertToShortName, hc]
  · by_cases hfl : stack.getLastD "" = ""
    · by_cases hc : isCommand v
      · simp [convertToFullName, convertToShortName, hc, hfl]
      · simp only [convertToFullName, convertToShortName, hfl, or_true, if_true]
        simp only [hc, if_false]
        have : lastComponent v = v := by
          unfold lastComponent
          rw [takeWhile_of_all_ne (by
            intro c hcm hce
            exact hdot (by simpa [hce] using (List.mem_reverse.mp hcm)))]
          rw [List.reverse_reverse, string_mk_toList]
        simp [this]
    · by_cases hc : isCommand v
      · simp [convertToFullName, convertToShortName, hc]
      · simp only [convertToFullName, convertToShortName, hc, hfl, or_self, false_or,
          if_false]
        set f := stack.getLastD "" with hf
        have hlist : (f ++ "." ++ v).toList = f.toList ++ '.' :: v.toList := by
          rw [string_toList_append, string_toList_append]
          simp [String.toList]
        have hdotmem : '.' ∈ (f ++ "." ++ v).toList := by
          rw [hlist]; simp
        have hnc : ¬ isCommand (f ++ "." ++ v) := by
          intro h
          rcases h with h | h <;> rw [h] at hdotmem <;> simp at hdotmem
        simp only [hnc, if_false, Option.some.injEq]
        unfold lastComponent
        rw [hlist, List.reverse_append]
        simp only [List.reverse_cons]
        have : (v.toList.reverse ++ ['.'] ++ f.toList.reverse).takeWhile
            (fun c => c != '.') = v.toList.reverse := by
          rw [List.append_assoc, List.singleton_append]
          exact takeWhile_append_stop (by
            intro c hcm hce
            exact hdot (by simpa [hce] using (List.mem_reverse.mp hcm)))
        rw [this, List.reverse_reverse, string_mk_toList]

theorem partPath_map_name (trace : List TEntry) :
    (partPath trace).map Piece.part_name = visitedNames trace := by
  induction trace with
  | nil => rfl
  | cons e rest ih =>
    cases e <;> simp [partPath, visitedNames, List.filterMap_cons] at * <;>
      simpa [visitedNames] using ih

theorem visitedNames_append (t₁ t₂ : List TEntry) :
    visitedNames (t₁ ++ t₂) = visitedNames t₁ ++ visitedNames t₂ := by
  simp [visitedNames]

/-!
## Helper lemmas about single steps
-/
@[simp] theorem pushE_committed (st : LoopSt) (e : TEntry) :
    (pushE st e).committed = st.committed := rfl
@[simp] theorem pushE_flowStack (st : LoopSt) (e : TEntry) :
    (pushE st e).flowStack = st.flowStack := rfl
@[simp] theorem pushE_asks (st : LoopSt) (e : TEntry) :
    (pushE st e).asks = st.asks := rfl
@[simp] theorem pushE_pathIndex (st : LoopSt) (e : TEntry) :
    (pushE st e).pathIndex = st.pathIndex := rfl
@[simp] theorem pushE_current (st : LoopSt) (e : TEntry) :
    (pushE st e).current = st.current := rfl
@[simp] theorem pushE_trace (st : LoopSt) (e : TEntry) :
    (pushE st e).trace = st.trace ++ [e] := rfl
@[simp] theorem advance_committed (st : LoopSt) (n : Option String) :
    (advance st n).committed = st.committed := rfl
@[simp] theorem advance_flowStack (st : LoopSt) (n : Option String) :
    (advance st n).flowStack = st.flowStack := rfl
@[simp] theorem advance_asks (st : LoopSt) (n : Option String) :
    (advance st n).asks = st.asks := rfl
@[simp] theorem advance_trace (st : LoopSt) (n : Option String) :
    (advance st n).trace = st.trace := rfl
@[simp] theorem advance_pathIndex (st : LoopSt) (n : Option String) :
    (advance st n).pathIndex = st.pathIndex + 1 := rfl
@[simp] theorem advance_current (st : LoopSt) (n : Option String) :
    (advance st n).current = convertToFullName n st.flowStack := rfl
theorem runPart_asks (ctx : Ctx) (nm : String) (st : LoopSt) :
    (runPart ctx nm st).2.asks = st.asks := by
  unfold runPart
  cases h : lookupPart ctx nm with
  | none => rfl
  | some p =>
    obtain ⟨k, np⟩ := p
    cases k with
    | step run => cases hr : run st.committed with
      | ok v => obtain ⟨a, b⟩ := v; simp [hr, pushE]
      | error e => simp [hr, pushE]
    | decision dec => cases hr : dec st.committed with
      | ok v => obtain ⟨a, b⟩ := v; simp [hr, pushE]
      | error e => simp [hr, pushE]
    | flow beg fin => cases hr : beg st.committed with
      | ok v => obtain ⟨a, b⟩ := v; simp [hr, pushE]
      | error e => simp [hr, pushE]

theorem runPart_committed_of_error {ctx : Ctx} {nm : String} {st : LoopSt}
    {p : Part} {e : String}
    (hp : lookupPart ctx nm = some p)
    (hraise : match p.kind with
      | .step run => run st.committed = .error e
      | .decision dec => dec st.committed = .error e
      | .flow beg _ => beg st.committed = .error e) :
    runPart ctx nm st = (none, pushE st (.errorE nm e)) := by
  unfold runPart
  rw [hp]
  obtain ⟨k, np⟩ := p
  cases k with
  | step run => simp only at hraise; simp [hraise]
  | decision dec => simp only at hraise; simp [hraise]
  | flow beg fin => simp only at hraise; simp [hraise]

theorem endFlowStep_asks (ctx : Ctx) (st : LoopSt) :
    (endFlowStep ctx st).2.asks = st.asks := by
  unfold endFlowStep
  cases hl : st.flowStack.getLast? with
  | none => rfl
  | some fname =>
    cases h : lookupPart ctx fname with
    | none => simp [h, pushE]
    | some p =>
      obtain ⟨k, np⟩ := p
      cases k with
      | step run => simp [h, pushE]
      | decision dec => simp [h, pushE]
      | flow beg fin => cases hr : fin st.committed <;> simp [h, hr, pushE]

theorem endFlowStep_committed (ctx : Ctx) (st : LoopSt) :
    (endFlowStep ctx st).2.committed = st.committed := by
  unfold endFlowStep
  cases hl : st.flowStack.getLast? with
  | none => rfl
  | some fname =>
    cases h : lookupPart ctx fname with
    | none => simp [h, pushE]
    | some p =>
      obtain ⟨k, np⟩ := p
      cases k with
      | step run => simp [h, pushE]
      | decision dec => simp [h, pushE]
      | flow beg fin => cases hr : fin st.committed <;> simp [h, hr, pushE]

/-- C1: if the dispatched contract method (run_step, decide_route or
begin_flow) of the current part raises, the loop iteration still
proceeds (the exception does not escape the loop), the committed
experiment data is unchanged, exactly the at_part entry plus one error
entry carrying the part name and message are appended, and the next
part is undecided (None), handing control to the researcher-decision
boundary on the next iteration. -/
theorem c1_part_failure_isolated (ctx : Ctx) (st : LoopSt) (nm : String)
    (p : Part) (e : String)
    (hcur : st.current = some nm)
    (hq : nm ≠ "quit") (hd : nm ≠ "done")
    (hp : lookupPart ctx nm = some p)
    (hraise : raisesWith p.kind st.committed e)
    (hdev : ∀ q, ctx.oldPath.get? st.pathIndex = some q → q.part_name = st.current) :
    loopIter ctx st = .proceed
      { st with trace := st.trace ++ [.atPart (some nm), .errorE nm e],
                pathIndex := st.pathIndex + 1,
                current := none } := by
  have hsome : (lookupPart ctx nm).isSome := by rw [hp]; rfl
  have hraise' : raisesWith (Part.kind p) (pushE st (.atPart (some nm))).committed e :=
    hraise
  have hr := @runPart_committed_of_error ctx nm (pushE st (.atPart (some nm))) p e hp hraise'
  have hbody : loopBody ctx st = .proceed
      { st with trace := st.trace ++ [.atPart (some nm), .errorE nm e],
                pathIndex := st.pathIndex + 1,
                current := none } := by
    unfold loopBody
    rw [hcur]
    have h1 : ¬ (some nm = some "quit") := by simp [hq]
    have h2 : ¬ (some nm = some "done") := by simp [hd]
    rw [if_neg h1, if_neg h2]
    have hr2 : runPart ctx nm
        { committed := st.committed, flowStack := st.flowStack,
          trace := st.trace ++ [TEntry.atPart (some nm)],
          asks := st.asks, pathIndex := st.pathIndex, current := st.current } =
        (none,
          { committed := st.committed, flowStack := st.flowStack,
            trace := (st.trace ++ [TEntry.atPart (some nm)]) ++ [TEntry.errorE nm e],
            asks := st.asks, pathIndex := st.pathIndex, current := st.current }) := hr
    simp [hsome, hr2, advance, pushE, convertToFullName]
  unfold loopIter
  cases hg : ctx.oldPath.get? st.pathIndex with
  | none => exact hbody
  | some q => simp only [hdev q hg, if_true]; exact hbody

/-- Concrete instantiation of C1 at a raising step part. -/
theorem c1_witness :
    ∃ st', loopIter
      ⟨"e", 1, [("a", ⟨.step (fun _ => .error "boom"), []⟩)], .normal, [],
        fun _ => "quit"⟩
      { committed := [], flowStack := [], trace := [], asks := 0,
        pathIndex := 0, current := some "a" } = .proceed st' ∧
      st'.committed = [] ∧
      st'.trace = [.atPart (some "a"), .errorE "a" "boom"] ∧
      st'.current = none := by
  refine ⟨_, c1_part_failure_isolated _ _ "a" ⟨.step (fun _ => .error "boom"), []⟩
    "boom" rfl (by decide) (by decide) rfl rfl (by intro q hq; cases hq), rfl, rfl, rfl⟩

/-!
## C4: path deviation aborts before anything is recorded or run
-/
/-- C4: while retracing, if the current path index is within the
historical part path and the historical name differs from the live name
about to be visited, the run aborts with the path deviation error, with
the state untouched: no entry recorded and no part executed at that
position. -/
theorem c4_path_deviation_aborts (ctx : Ctx) (st : LoopSt) (q : Piece) (fuel : Nat)
    (hin : ctx.oldPath.get? st.pathIndex = some q)
    (hne : q.part_name ≠ st.current) :
    runLoop ctx (fuel + 1) st = .deviated q.part_name st.current st := by
  unfold runLoop loopIter
  rw [hin]
  simp [hne]

/-- Concrete instantiation of C4: a one-piece history naming b while the
live run is about to visit a. -/
theorem c4_witness :
    runLoop
      ⟨"e", 1, [], .rerun, [⟨some "b", none⟩], fun _ => "quit"⟩ 5
      { committed := [], flowStack := [], trace := [], asks := 0,
        pathIndex := 0, current := some "a" } =
    .deviated (some "b") (some "a")
      { committed := [], flowStack := [], trace := [], asks := 0,
        pathIndex := 0, current := some "a" } := by
  exact c4_path_deviation_aborts _ _ ⟨some "b", none⟩ 4 rfl (by decide)

/-- C5: strictly before the last recorded position of the historical
part path the loop never prompts the researcher (it replays the
historical choice); and a quit encountered exactly at the tail of
history prompts the researcher in continue mode (one more prompt,
loop proceeds) but terminates the run in any other mode. -/
theorem c5_continue_replays_then_prompts (ctx : Ctx) (st : LoopSt) :
    (st.pathIndex + 1 < ctx.oldPath.length → asksOf (loopIter ctx st) = st.asks) ∧
    (st.current = some "quit" → st.pathIndex + 1 = ctx.oldPath.length →
      (∀ q, ctx.oldPath.get? st.pathIndex = some q → q.part_name = st.current) →
      (ctx.mode = .continueMode →
        ∃ st', loopIter ctx st = .proceed st' ∧ st'.asks = st.asks + 1) ∧
      (ctx.mode ≠ .continueMode →
        loopIter ctx st = .stopRun (pushE st (.atPart st.current)))) := by
  constructor
  · intro hlt
    have hbody : asksOf (loopBody ctx st) = st.asks := by
      unfold loopBody
      by_cases h1 : st.current = some "quit"
      · simp [h1, pushE, hlt, advance, asksOf]
      · by_cases h2 : st.current = some "done"
        · simp only [h1, if_false, h2, if_true]
          have hA : (endFlowStep ctx (pushE st (TEntry.atPart (some "done")))).2.asks
              = st.asks := by rw [endFlowStep_asks]; rfl
          rcases hef : endFlowStep ctx (pushE st (TEntry.atPart (some "done"))) with ⟨nx, st2⟩
          rw [hef] at hA
          simp [h2, hef, asksOf, advance]
          exact hA
        · simp only [h1, if_false, h2, if_false]
          cases hc : st.current with
          | none => simp [undecidedStep, pushE, hlt, advance, asksOf]
          | some nm =>
            by_cases h3 : (lookupPart ctx nm).isSome
            · simp only [h3, if_true]
              have hA : (runPart ctx nm (pushE st (TEntry.atPart (some nm)))).2.asks
                  = st.asks := by rw [runPart_asks]; rfl
              rcases hrp : runPart ctx nm (pushE st (TEntry.atPart (some nm))) with ⟨nx, st2⟩
              rw [hrp] at hA
              simp [hc, hrp, asksOf, advance]
              exact hA
            · simp [h3, undecidedStep, pushE, hlt, advance, asksOf]
    unfold loopIter
    cases hg : ctx.oldPath.get? st.pathIndex with
    | some q =>
      by_cases hqn : q.part_name = st.current
      · simpa [hqn] using hbody
      · simp [hqn, asksOf]
    | none => exact hbody
  · intro hq htail hdev
    have hiter : loopIter ctx st = loopBody ctx st := by
      unfold loopIter
      cases hg : ctx.oldPath.get? st.pathIndex with
      | none => rfl
      | some q => simp [hdev q hg]
    have hnlt : ¬ (st.pathIndex + 1 < ctx.oldPath.length) := by omega
    constructor
    · intro hmode
      rw [hiter]
      unfold loopBody
      simp only [hq, if_true, pushE]
      simp only [hnlt, if_false]
      simp only [hmode, htail, and_self, if_true, askResearcher]
      exact ⟨_, rfl, rfl⟩
    · intro hmode
      rw [hiter]
      unfold loopBody
      simp only [hq, if_true, pushE]
      simp only [hnlt, if_false]
      have : ¬ (ctx.mode = EMode.continueMode ∧
          st.pathIndex + 1 = ctx.oldPath.length) := by
        intro hcx; exact hmode hcx.1
      simp [this]

/-- Concrete instantiation of C5: quit at the tail of a one-piece
history in continue mode prompts the researcher and proceeds. -/
theorem c5_witness :
    ∃ st', loopIter c5ctx c5st = .proceed st' ∧ st'.asks = c5st.asks + 1 := by
  exact ((c5_continue_replays_then_prompts c5ctx c5st).2 rfl rfl
    (by intro q hq; cases hq; rfl)).1 rfl

/-- C6 as stated is false: in the run of c6ctx the done-command
iteration pops the flow whose end_flow raises, so right after it the
flow stack is empty while the trace holds one flow_begin entry and no
flow_end entry. -/
theorem c6_counterexample :
    ¬ (∀ s ∈ trajLoop c6ctx 12 c6init, FBInv s) := by decide

theorem countFB_append (t s : List TEntry) :
    countFlowBegin (t ++ s) = countFlowBegin t + countFlowBegin s := by
  simp [countFlowBegin, List.countP_append]

theorem countFE_append (t s : List TEntry) :
    countFlowEnd (t ++ s) = countFlowEnd t + countFlowEnd s := by
  simp [countFlowEnd, List.countP_append]

theorem pushE_fb_neutral (st : LoopSt) (e : TEntry)
    (hb : countFlowBegin [e] = 0) (he : countFlowEnd [e] = 0)
    (hi : FBInv st) : FBInv (pushE st e) := by
  unfold FBInv at hi ⊢
  simp only [pushE, countFE_append, countFB_append, hb, he]
  omega

theorem endFlowStep_fb (ctx : Ctx) (st : LoopSt)
    (h : NoEndFlowErrors ctx) (hs : StackOk ctx st) (hi : FBInv st) :
    FBInv (endFlowStep ctx st).2 ∧ StackOk ctx (endFlowStep ctx st).2 := by
  cases hl : st.flowStack.getLast? with
  | none =>
    have heq : endFlowStep ctx st = (some "quit", st) := by
      unfold endFlowStep; rw [hl]
    rw [heq]
    exact ⟨hi, hs⟩
  | some fname =>
    have hmem : fname ∈ st.flowStack := by
      cases hfl : st.flowStack with
      | nil => rw [hfl] at hl; cases hl
      | cons x xs =>
        rw [hfl] at hl
        rw [List.getLast?_eq_getLast (x :: xs) (by simp)] at hl
        have hmem' := List.getLast_mem (l := x :: xs) (by simp)
        rw [Option.some.injEq] at hl
        rw [hl] at hmem'
        simpa [hfl] using hmem'
    obtain ⟨p, beg, fin, hp, hk⟩ := hs fname hmem
    obtain ⟨pd, hok⟩ := h fname p hp beg fin hk st.committed
    have hne : st.flowStack ≠ [] := by
      intro hnil; rw [hnil] at hl; cases hl
    have hlen : st.flowStack.length = st.flowStack.dropLast.length + 1 := by
      rw [List.length_dropLast]
      have : 0 < st.flowStack.length := List.length_pos.mpr hne
      omega
    obtain ⟨k, np⟩ := p
    simp only at hk
    subst hk
    have heq : endFlowStep ctx st =
        (lookupRoute np "",
          { st with flowStack := st.flowStack.dropLast,
                    trace := st.trace ++ [.flowEnd fname pd] }) := by
      unfold endFlowStep
      rw [hl]
      simp only [hp, hok]
      rfl
    rw [heq]
    constructor
    · unfold FBInv at hi ⊢
      simp only [countFE_append, countFB_append]
      have h1 : countFlowEnd [TEntry.flowEnd fname pd] = 1 := rfl
      have h2 : countFlowBegin [TEntry.flowEnd fname pd] = 0 := rfl
      rw [h1, h2]
      omega
    · intro nm hmemd
      exact hs nm (List.dropLast_subset _ hmemd)

theorem runPart_fb (ctx : Ctx) (nm : String) (st : LoopSt)
    (hs : StackOk ctx st) (hi : FBInv st) :
    FBInv (runPart ctx nm st).2 ∧ StackOk ctx (runPart ctx nm st).2 := by
  cases hp : lookupPart ctx nm with
  | none =>
    have heq : runPart ctx nm st = (none, st) := by
      unfold runPart; rw [hp]
    rw [heq]
    exact ⟨hi, hs⟩
  | some p =>
    obtain ⟨k, np⟩ := p
    cases k with
    | step run =>
      cases hr : run st.committed with
      | ok v =>
        obtain ⟨a, b⟩ := v
        have heq : runPart ctx nm st =
            (lookupRoute np "",
              { st with trace := st.trace ++ [.stepE nm st.committed a b],
                        committed := a }) := by
          unfold runPart; rw [hp]; simp only [hr]
        rw [heq]
        exact ⟨pushE_fb_neutral st _ rfl rfl hi, fun x hx => hs x hx⟩
      | error e =>
        have heq : runPart ctx nm st = (none, pushE st (.errorE nm e)) := by
          unfold runPart; rw [hp]; simp only [hr]
        rw [heq]
        exact ⟨pushE_fb_neutral st _ rfl rfl hi, fun x hx => hs x hx⟩
    | decision dec =>
      cases hr : dec st.committed with
      | ok v =>
        obtain ⟨a, b⟩ := v
        have heq : (runPart ctx nm st).2 =
            pushE st (.decisionE nm (match a with
              | none => none
              | some r => if isCommand r then some r else lookupRoute np r) b) := by
          unfold runPart; simp only [hp, hr]; cases a <;> rfl
        rw [heq]
        exact ⟨pushE_fb_neutral st _ rfl rfl hi, fun x hx => hs x hx⟩
      | error e =>
        have heq : runPart ctx nm st = (none, pushE st (.errorE nm e)) := by
          unfold runPart; simp only [hp, hr]
        rw [heq]
        exact ⟨pushE_fb_neutral st _ rfl rfl hi, fun x hx => hs x hx⟩
    | flow beg fin =>
      cases hr : beg st.committed with
      | ok v =>
        obtain ⟨a, b⟩ := v
        have heq : runPart ctx nm st =
            (a, { st with flowStack := st.flowStack ++ [nm],
                          trace := st.trace ++ [.flowBegin nm a b] }) := by
          unfold runPart; rw [hp]; simp only [hr]
        rw [heq]
        constructor
        · unfold FBInv at hi ⊢
          simp only [countFE_append, countFB_append, List.length_append]
          have h1 : countFlowEnd [TEntry.flowBegin nm a b] = 0 := rfl
          have h2 : countFlowBegin [TEntry.flowBegin nm a b] = 1 := rfl
          rw [h1, h2]
          simp only [List.length_singleton]
          omega
        · intro x hx
          simp only [List.mem_append, List.mem_singleton] at hx
          rcases hx with hx | hx
          · exact hs x hx
          · subst hx
            exact ⟨⟨.flow beg fin, np⟩, beg, fin, hp, rfl⟩
      | error e =>
        have heq : runPart ctx nm st = (none, pushE st (.errorE nm e)) := by
          unfold runPart; rw [hp]; simp only [hr]
        rw [heq]
        exact ⟨pushE_fb_neutral st _ rfl rfl hi, fun x hx => hs x hx⟩

theorem FBInv_advance (st : LoopSt) (n : Option String) :
    FBInv st → FBInv (advance st n) := fun h => h

theorem StackOk_advance (ctx : Ctx) (st : LoopSt) (n : Option String) :
    StackOk ctx st → StackOk ctx (advance st n) := fun h => h

theorem loopIter_fb (ctx : Ctx) (st : LoopSt)
    (h : NoEndFlowErrors ctx) (hs : StackOk ctx st) (hi : FBInv st) :
    InvOut ctx (loopIter ctx st) := by
  have hst1 : FBInv (pushE st (.atPart st.current)) ∧
      StackOk ctx (pushE st (.atPart st.current)) :=
    ⟨pushE_fb_neutral st _ rfl rfl hi, fun x hx => hs x hx⟩
  have hbody : InvOut ctx (loopBody ctx st) := by
    unfold loopBody
    by_cases h1 : st.current = some "quit"
    · rw [h1] at hst1
      simp only [h1, if_true, pushE_pathIndex, pushE_asks]
      by_cases h2 : st.pathIndex + 1 < ctx.oldPath.length
      · simp only [h2, if_true, InvOut]
        refine ⟨FBInv_advance _ _ (pushE_fb_neutral _ _ ?_ ?_ hst1.1),
               StackOk_advance _ _ _ (fun x hx => hst1.2 x hx)⟩ <;> rfl
      · simp only [h2, if_false]
        by_cases h3 : ctx.mode = EMode.continueMode ∧
            st.pathIndex + 1 = ctx.oldPath.length
        · simp only [h3, and_self, if_true, InvOut, askResearcher]
          refine ⟨FBInv_advance _ _ (pushE_fb_neutral _ _ ?_ ?_ hst1.1),
                 StackOk_advance _ _ _ (fun x hx => hst1.2 x hx)⟩ <;> rfl
        · simp only [if_neg h3, InvOut]
          exact hst1
    · by_cases h2 : st.current = some "done"
      · simp only [h1, if_false, h2, if_true]
        have hefb := endFlowStep_fb ctx (pushE st (TEntry.atPart (some "done"))) h
          (by rw [h2] at hst1; exact hst1.2) (by rw [h2] at hst1; exact hst1.1)
        rcases hef : endFlowStep ctx (pushE st (TEntry.atPart (some "done"))) with ⟨nx, st2⟩
        rw [hef] at hefb
        simp only [h2, hef, InvOut]
        exact ⟨FBInv_advance _ _ hefb.1, StackOk_advance _ _ _ hefb.2⟩
      · simp only [h1, if_false, h2, if_false]
        cases hc : st.current with
        | none =>
          rw [hc] at hst1
          unfold undecidedStep
          simp only [pushE_pathIndex, pushE_asks]
          by_cases h3 : st.pathIndex + 1 < ctx.oldPath.length
          · simp only [h3, if_true, InvOut]
            refine ⟨FBInv_advance _ _ (pushE_fb_neutral _ _ ?_ ?_ hst1.1),
                   StackOk_advance _ _ _ (fun x hx => hst1.2 x hx)⟩ <;> rfl
          · simp only [h3, if_false, InvOut, askResearcher]
            refine ⟨FBInv_advance _ _ (pushE_fb_neutral _ _ ?_ ?_ hst1.1),
                   StackOk_advance _ _ _ (fun x hx => hst1.2 x hx)⟩ <;> rfl
        | some nm =>
          rw [hc] at hst1
          by_cases h3 : (lookupPart ctx nm).isSome
          · simp only [h3, if_true]
            have hrpb := runPart_fb ctx nm (pushE st (TEntry.atPart (some nm)))
              hst1.2 hst1.1
            rcases hrp : runPart ctx nm (pushE st (TEntry.atPart (some nm))) with ⟨nx, st2⟩
            rw [hrp] at hrpb
            simp only [hrp, InvOut]
            exact ⟨FBInv_advance _ _ hrpb.1, StackOk_advance _ _ _ hrpb.2⟩
          · simp only [h3, if_false]
            unfold undecidedStep
            simp only [pushE_pathIndex, pushE_asks]
            by_cases h4 : st.pathIndex + 1 < ctx.oldPath.length
            · simp only [h4, if_true, InvOut]
              refine ⟨FBInv_advance _ _ (pushE_fb_neutral _ _ ?_ ?_ hst1.1),
                     StackOk_advance _ _ _ (fun x hx => hst1.2 x hx)⟩ <;> rfl
            · simp only [h4, if_false, InvOut, askResearcher]
              refine ⟨FBInv_advance _ _ (pushE_fb_neutral _ _ ?_ ?_ hst1.1),
                     StackOk_advance _ _ _ (fun x hx => hst1.2 x hx)⟩ <;> rfl
  unfold loopIter
  cases hg : ctx.oldPath.get? st.pathIndex with
  | some q =>
    by_cases hqn : q.part_name = st.current
    · simpa [hqn] using hbody
    · simp only [hqn, if_false, InvOut]
      exact ⟨hi, hs⟩
  | none => exact hbody

theorem teardownTraj_fb (ctx : Ctx) (h : NoEndFlowErrors ctx) :
    ∀ n st, FBInv st → StackOk ctx st →
      ∀ s ∈ teardownTraj ctx n st, FBInv s := by
  intro n
  induction n with
  | zero =>
    intro st hi hs s hmem
    simp only [teardownTraj, List.mem_singleton] at hmem
    subst hmem
    exact pushE_fb_neutral st _ rfl rfl hi
  | succ k ih =>
    intro st hi hs s hmem
    simp only [teardownTraj, List.mem_cons] at hmem
    have hefb := endFlowStep_fb ctx st h hs hi
    rcases hmem with rfl | hmem'
    · exact hefb.1
    · exact ih (endFlowStep ctx st).2 hefb.1 hefb.2 s hmem'

/-- C6 amended: for every run in which no end_flow call raises, at every
engine state along the run the flow stack depth equals the number of
flow_begin entries minus the number of flow_end entries in the trace so
far.  (The unamended claim fails when an end_flow raises, because the
flow stack is popped before end_flow runs and no flow_end entry is
recorded on the error path.) -/
theorem c6_flow_balance_no_end_errors (ctx : Ctx) (h : NoEndFlowErrors ctx) :
    ∀ fuel st, FBInv st → StackOk ctx st →
      ∀ s ∈ trajLoop ctx fuel st, FBInv s := by
  intro fuel
  induction fuel with
  | zero =>
    intro st hi hs s hmem
    simp only [trajLoop, List.mem_singleton] at hmem
    subst hmem
    exact hi
  | succ n ih =>
    intro st hi hs s hmem
    simp only [trajLoop, List.mem_cons] at hmem
    rcases hmem with rfl | hmem'
    · exact hi
    · have hio := loopIter_fb ctx st h hs hi
      cases hit : loopIter ctx st with
      | proceed st' =>
        rw [hit] at hio hmem'
        exact ih st' hio.1 hio.2 s hmem'
      | stopRun st' =>
        rw [hit] at hio hmem'
        simp only [List.mem_cons] at hmem'
        rcases hmem' with rfl | hmem''
        · exact hio.1
        · exact teardownTraj_fb ctx h st'.flowStack.length st' hio.1 hio.2 s hmem''
      | deviate e g st' =>
        rw [hit] at hio hmem'
        simp only [List.mem_singleton] at hmem'
        subst hmem'
        exact hio.1

/-- A context whose parts all have non-raising end_flow bodies has no
end_flow errors. -/
theorem noEndFlowErrors_of_forall (ctx : Ctx)
    (hall : ∀ pr ∈ ctx.parts, ∀ beg fin, pr.2.kind = PartKind.flow beg fin →
      ∀ d, ∃ pd, fin d = .ok pd) :
    NoEndFlowErrors ctx := by
  intro nm p hp beg fin hk d
  unfold lookupPart at hp
  cases hf : ctx.parts.find? (fun q => q.1 = nm) with
  | none => rw [hf] at hp; cases hp
  | some pr =>
    rw [hf] at hp
    cases hp
    exact hall pr (List.mem_of_find?_eq_some hf) beg fin hk d

/-- Concrete instantiation of the amended C6: in the run of the flow
graph whose end_flow succeeds, the mid-run state at index five of the
trajectory satisfies the balance invariant. -/
theorem c6_witness :
    FBInv ((trajLoop c6goodCtx 12 c6init).get ⟨5, by decide⟩) := by
  refine c6_flow_balance_no_end_errors c6goodCtx ?_ 12 c6init (by decide) ?_ _ ?_
  · apply noEndFlowErrors_of_forall
    intro pr hmem beg fin hk d
    simp only [c6goodCtx, c6goodParts, List.mem_cons, List.not_mem_nil, or_false] at hmem
    rcases hmem with rfl | rfl
    · simp only at hk
      injection hk with hb hf
      rw [← hf]
      exact ⟨none, rfl⟩
    · simp only at hk
      cases hk
  · intro nm hmem
    simp [c6init] at hmem
  · apply List.get_mem

theorem stepsOf_append (t s : List TEntry) :
    stepsOf (t ++ s) = stepsOf t ++ stepsOf s := by
  simp [stepsOf]

theorem stepInv_push_neutral (st : LoopSt) (e : TEntry)
    (he : stepsOf [e] = []) (h : StepInv st) : StepInv (pushE st e) := by
  constructor
  · unfold StepChain
    simp only [pushE_trace, stepsOf_append, he, List.append_nil]
    exact h.1
  · intro pr hpr
    simp only [pushE_trace, stepsOf_append, he, List.append_nil] at hpr
    exact h.2 pr hpr

theorem stepInv_advance (st : LoopSt) (n : Option String) :
    StepInv st → StepInv (advance st n) := fun h => h

theorem runPart_stepInv (ctx : Ctx) (nm : String) (st : LoopSt)
    (h : StepInv st) : StepInv (runPart ctx nm st).2 := by
  cases hp : lookupPart ctx nm with
  | none =>
    have heq : runPart ctx nm st = (none, st) := by unfold runPart; rw [hp]
    rw [heq]; exact h
  | some p =>
    obtain ⟨k, np⟩ := p
    cases k with
    | step run =>
      cases hr : run st.committed with
      | ok v =>
        obtain ⟨a, b⟩ := v
        have heq : runPart ctx nm st =
            (lookupRoute np "",
              { st with trace := st.trace ++ [.stepE nm st.committed a b],
                        committed := a }) := by
          unfold runPart; rw [hp]; simp only [hr]
        rw [heq]
        have hsingle : stepsOf [TEntry.stepE nm st.committed a b] =
            [(st.committed, a)] := rfl
        constructor
        · unfold StepChain
          simp only [stepsOf_append, hsingle]
          rw [List.chain'_append]
          refine ⟨h.1, List.chain'_singleton _, ?_⟩
          intro x hx y hy
          simp only [List.head?_cons, Option.mem_def, Option.some.injEq] at hy
          subst hy
          have := h.2 x (by simpa using hx)
          simp [this]
        · intro pr hpr
          rw [stepsOf_append, hsingle, List.getLast?_concat] at hpr
          simp only [Option.some.injEq] at hpr
          subst hpr
          rfl
      | error e =>
        have heq : runPart ctx nm st = (none, pushE st (.errorE nm e)) := by
          unfold runPart; rw [hp]; simp only [hr]
        rw [heq]
        exact stepInv_push_neutral st _ rfl h
    | decision dec =>
      cases hr : dec st.committed with
      | ok v =>
        obtain ⟨a, b⟩ := v
        have heq : (runPart ctx nm st).2 =
            pushE st (.decisionE nm (match a with
              | none => none
              | some r => if isCommand r then some r else lookupRoute np r) b) := by
          unfold runPart; simp only [hp, hr]; cases a <;> rfl
        rw [heq]
        exact stepInv_push_neutral st _ rfl h
      | error e =>
        have heq : runPart ctx nm st = (none, pushE st (.errorE nm e)) := by
          unfold runPart; simp only [hp, hr]
        rw [heq]
        exact stepInv_push_neutral st _ rfl h
    | flow beg fin =>
      cases hr : beg st.committed with
      | ok v =>
        obtain ⟨a, b⟩ := v
        have heq : runPart ctx nm st =
            (a, { st with flowStack := st.flowStack ++ [nm],
                          trace := st.trace ++ [.flowBegin nm a b] }) := by
          unfold runPart; rw [hp]; simp only [hr]
        rw [heq]
        show StepInv (pushE { st with flowStack := st.flowStack ++ [nm] }
          (.flowBegin nm a b))
        exact stepInv_push_neutral _ _ rfl h
      | error e =>
        have heq : runPart ctx nm st = (none, pushE st (.errorE nm e)) := by
          unfold runPart; simp only [hp, hr]
        rw [heq]
        exact stepInv_push_neutral st _ rfl h

theorem endFlowStep_stepInv (ctx : Ctx) (st : LoopSt)
    (h : StepInv st) : StepInv (endFlowStep ctx st).2 := by
  unfold endFlowStep
  cases hl : st.flowStack.getLast? with
  | none => exact h
  | some fname =>
    have hdrop : StepInv { st with flowStack := st.flowStack.dropLast } := h
    cases hpp : lookupPart ctx fname with
    | none =>
      simp only [hpp]
      exact stepInv_push_neutral _ _ rfl hdrop
    | some p =>
      obtain ⟨k, np⟩ := p
      cases k with
      | step run => simp only [hpp]; exact stepInv_push_neutral _ _ rfl hdrop
      | decision dec => simp only [hpp]; exact stepInv_push_neutral _ _ rfl hdrop
      | flow beg fin =>
        cases hr : fin st.committed with
        | ok pd =>
          simp only [hpp, hr]
          exact stepInv_push_neutral _ _ rfl hdrop
        | error e =>
          simp only [hpp, hr]
          exact stepInv_push_neutral _ _ rfl hdrop

theorem loopIter_stepInv (ctx : Ctx) (st : LoopSt) (h : StepInv st) :
    StepOut (loopIter ctx st) := by
  have hst1 : StepInv (pushE st (.atPart st.current)) :=
    stepInv_push_neutral st _ rfl h
  have hbody : StepOut (loopBody ctx st) := by
    unfold loopBody
    by_cases h1 : st.current = some "quit"
    · rw [h1] at hst1
      simp only [h1, if_true, pushE_pathIndex, pushE_asks]
      by_cases h2 : st.pathIndex + 1 < ctx.oldPath.length
      · simp only [h2, if_true, StepOut]
        exact stepInv_advance _ _ (stepInv_push_neutral _ _ rfl hst1)
      · simp only [h2, if_false]
        by_cases h3 : ctx.mode = EMode.continueMode ∧
            st.pathIndex + 1 = ctx.oldPath.length
        · simp only [h3, and_self, if_true, StepOut, askResearcher]
          exact stepInv_advance _ _ (stepInv_push_neutral _ _ rfl hst1)
        · simp only [if_neg h3, StepOut]
          exact hst1
    · by_cases h2 : st.current = some "done"
      · simp only [h1, if_false, h2, if_true]
        have hefb := endFlowStep_stepInv ctx (pushE st (TEntry.atPart (some "done")))
          (by rw [h2] at hst1; exact hst1)
        rcases hef : endFlowStep ctx (pushE st (TEntry.atPart (some "done"))) with ⟨nx, st2⟩
        rw [hef] at hefb
        simp only [h2, hef, StepOut]
        exact stepInv_advance _ _ hefb
      · simp only [h1, if_false, h2, if_false]
        cases hc : st.current with
        | none =>
          rw [hc] at hst1
          unfold undecidedStep
          simp only [pushE_pathIndex, pushE_asks]
          by_cases h3 : st.pathIndex + 1 < ctx.oldPath.length
          · simp only [h3, if_true, StepOut]
            exact stepInv_advance _ _ (stepInv_push_neutral _ _ rfl hst1)
          · simp only [h3, if_false, StepOut, askResearcher]
            exact stepInv_advance _ _ (stepInv_push_neutral _ _ rfl hst1)
        | some nm =>
          rw [hc] at hst1
          by_cases h3 : (lookupPart ctx nm).isSome
          · simp only [h3, if_true]
            have hrpb := runPart_stepInv ctx nm (pushE st (TEntry.atPart (some nm))) hst1
            rcases hrp : runPart ctx nm (pushE st (TEntry.atPart (some nm))) with ⟨nx, st2⟩
            rw [hrp] at hrpb
            simp only [hrp, StepOut]
            exact stepInv_advance _ _ hrpb
          · simp only [h3, if_false]
            unfold undecidedStep
            simp only [pushE_pathIndex, pushE_asks]
            by_cases h4 : st.pathIndex + 1 < ctx.oldPath.length
            · simp only [h4, if_true, StepOut]
              exact stepInv_advance _ _ (stepInv_push_neutral _ _ rfl hst1)
            · simp only [h4, if_false, StepOut, askResearcher]
              exact stepInv_advance _ _ (stepInv_push_neutral _ _ rfl hst1)
  unfold loopIter
  cases hg : ctx.oldPath.get? st.pathIndex with
  | some q =>
    by_cases hqn : q.part_name = st.current
    · simpa [hqn] using hbody
    · simp only [hqn, if_false, StepOut]
      exact h
  | none => exact hbody

theorem teardownN_stepInv (ctx : Ctx) :
    ∀ n st, StepInv st → StepInv (teardownN ctx n st) := by
  intro n
  induction n with
  | zero => intro st h; exact h
  | succ k ih =>
    intro st h
    exact ih (endFlowStep ctx st).2 (endFlowStep_stepInv ctx st h)

theorem runLoop_stepInv (ctx : Ctx) :
    ∀ fuel st s, StepInv st → runLoop ctx fuel st = .finished s → StepInv s := by
  intro fuel
  induction fuel with
  | zero => intro st s _ hrun; cases hrun
  | succ n ih =>
    intro st s h hrun
    unfold runLoop at hrun
    have hio := loopIter_stepInv ctx st h
    cases hit : loopIter ctx st with
    | proceed st' =>
      rw [hit] at hrun hio
      exact ih st' s hio hrun
    | stopRun st' =>
      rw [hit] at hrun hio
      simp only [RunResult.finished.injEq] at hrun
      subst hrun
      unfold teardown
      exact stepInv_push_neutral _ _ rfl
        (teardownN_stepInv ctx st'.flowStack.length st' hio)
    | deviate e g st' =>
      rw [hit] at hrun
      cases hrun

/-- The part_add entries recorded by _construct_parts contain no at_part
and no step entries. -/
theorem constructParts_entries (reg : Registry) :
    ∀ specs parts entries,
      constructParts reg specs = .ok (parts, entries) →
      stepsOf entries = [] ∧ visitedNames entries = [] := by
  intro specs
  induction specs with
  | nil =>
    intro parts entries hcp
    unfold constructParts at hcp
    simp only [Except.ok.injEq, Prod.mk.injEq] at hcp
    rw [← hcp.2]
    exact ⟨rfl, rfl⟩
  | cons pc rest ih =>
    intro parts entries hcp
    unfold constructParts at hcp
    cases hf : reg.find? (fun r => r.1 = pc.typeName) with
    | none => rw [hf] at hcp; cases hcp
    | some rk =>
      obtain ⟨tn, kind⟩ := rk
      rw [hf] at hcp
      cases hrec : constructParts reg rest with
      | error e => rw [hrec] at hcp; cases hcp
      | ok pe =>
        obtain ⟨parts', entries'⟩ := pe
        rw [hrec] at hcp
        simp only [Except.ok.injEq, Prod.mk.injEq] at hcp
        rw [← hcp.2]
        have := ih parts' entries' hrec
        constructor
        · show stepsOf (.partAdd pc.fullName pc.filePath pc.raw (categoryOf kind)
            :: entries') = []
          simpa [stepsOf, List.filterMap_cons] using this.1
        · show visitedNames (.partAdd pc.fullName pc.filePath pc.raw (categoryOf kind)
            :: entries') = []
          simpa [visitedNames, List.filterMap_cons] using this.2

/-- The initial loop state satisfies the step-chain invariant: the
part_add entries and the experiment_begin entry contain no step
entries. -/
theorem mkInitSt_stepInv (cfg : Config) (rn : Nat) (parts : List (String × Part))
    (addEntries : List TEntry)
    (hcp : constructParts cfg.registry cfg.partSpecs = .ok (parts, addEntries)) :
    StepInv (mkInitSt cfg rn addEntries) := by
  have hce := constructParts_entries cfg.registry cfg.partSpecs parts addEntries hcp
  have hsteps : stepsOf (mkInitSt cfg rn addEntries).trace = [] := by
    show stepsOf (addEntries ++
      [.experimentBegin cfg.experimentName rn cfg.initialValues]) = []
    rw [stepsOf_append, hce.1]
    rfl
  constructor
  · unfold StepChain
    rw [hsteps]
    exact List.chain'_nil
  · intro pr hpr
    rw [hsteps] at hpr
    cases hpr

theorem runFromConstruction_stepChain (cfg : Config) (mode : EMode) (rn : Nat)
    (oldPath : List Piece) (r : Nat → String) (fuel : Nat)
    (file : FileSt) (s : LoopSt)
    (h : runFromConstruction cfg mode rn oldPath r fuel = (file, .ok s)) :
    StepChain s.trace := by
  unfold runFromConstruction at h
  cases hcp : constructParts cfg.registry cfg.partSpecs with
  | error e => rw [hcp] at h; cases h
  | ok pe =>
    obtain ⟨parts, addEntries⟩ := pe
    rw [hcp] at h
    simp only [] at h
    have hinit := mkInitSt_stepInv cfg rn parts addEntries hcp
    cases hrl : runLoop (mkCtx cfg mode rn oldPath r parts) fuel
        (mkInitSt cfg rn addEntries) with
    | finished sfin =>
      rw [hrl] at h
      simp only [Prod.mk.injEq, RunOutcome.ok.injEq] at h
      have := runLoop_stepInv (mkCtx cfg mode rn oldPath r parts) fuel
        (mkInitSt cfg rn addEntries) sfin hinit hrl
      rw [← h.2]
      exact this.1
    | deviated e g sdev => rw [hrl] at h; simp at h
    | fuelOut sfo => rw [hrl] at h; simp at h

/-- C2: in the trace of any completed run, every pair of consecutive
step entries (step N and the next step entry after it, whatever
decisions, flow transitions, failures or researcher decisions lie in
between) satisfies: the data_before snapshot of step N+1 (the committed
store as that step started, i.e. the data visible to it) equals the
data_after snapshot of step N; no committed mutation is lost or
duplicated. -/
theorem c2_step_chain (cfg : Config) (mode : EMode) (rn : Nat)
    (ot : Option (List Piece)) (r : Nat → String) (fuel : Nat)
    (file : FileSt) (s : LoopSt)
    (h : runExperiment cfg mode rn ot r fuel = (file, .ok s)) :
    StepChain s.trace := by
  unfold runExperiment at h
  cases mode <;> cases ot <;> simp only [] at h <;>
    first
    | exact runFromConstruction_stepChain cfg _ rn _ r fuel file s h
    | simp at h

/-- Concrete instantiation of C2: a completed two-step run whose final
trace is a step chain. -/
theorem c2_witness :
    ∃ s, runExperiment c2cfg .normal 1 none (fun _ => "quit") 20 =
      (⟨true, true, true⟩, .ok s) ∧ StepChain s.trace := by
  refine ⟨_, rfl, c2_step_chain c2cfg .normal 1 none (fun _ => "quit") 20 _ _ rfl⟩

/-- C7 as stated is false: a configuration error during part
construction exits the run after the trace file has been opened (header
written) but before the with-statement over the new trace is entered,
so the file is neither finalized nor closed on that exit path. -/
theorem c7_counterexample :
    (runExperiment c7cfg .normal 1 none (fun _ => "quit") 10).1.opened = true ∧
    (runExperiment c7cfg .normal 1 none (fun _ => "quit") 10).1.finalized = false ∧
    (runExperiment c7cfg .normal 1 none (fun _ => "quit") 10).1.closed = false ∧
    (runExperiment c7cfg .normal 1 none (fun _ => "quit") 10).2 =
      .configError "Failed to add part a" := by
  exact ⟨rfl, rfl, rfl, rfl⟩

/-- C7 amended: on every exit path of the with-statement over the new
trace — normal completion and every exception raised inside the run
loop, path-deviation aborts included — the trace output file is
finalized (closing brackets written) and closed.  Exceptions raised
while constructing parts, before the with-statement, are not covered. -/
theorem c7_finalized_on_loop_exits (cfg : Config) (mode : EMode) (rn : Nat)
    (ot : Option (List Piece)) (r : Nat → String) (fuel : Nat)
    (file : FileSt) (out : RunOutcome)
    (h : runExperiment cfg mode rn ot r fuel = (file, out))
    (hout : (∃ s, out = .ok s) ∨ (∃ e g s, out = .pathDeviation e g s)) :
    file.finalized = true ∧ file.closed = true := by
  have hmain : ∀ oldPath, runFromConstruction cfg mode rn oldPath r fuel = (file, out) →
      file.finalized = true ∧ file.closed = true := by
    intro oldPath hrc
    unfold runFromConstruction at hrc
    cases hcp : constructParts cfg.registry cfg.partSpecs with
    | error e =>
      rw [hcp] at hrc
      simp only [Prod.mk.injEq] at hrc
      rcases hout with ⟨s, hs⟩ | ⟨e', g', s, hs⟩ <;> rw [hs] at hrc <;> cases hrc.2
    | ok pe =>
      obtain ⟨parts, addEntries⟩ := pe
      rw [hcp] at hrc
      simp only [] at hrc
      cases hrl : runLoop (mkCtx cfg mode rn oldPath r parts) fuel
          (mkInitSt cfg rn addEntries) with
      | finished sfin =>
        rw [hrl] at hrc
        simp only [Prod.mk.injEq] at hrc
        rw [← hrc.1]
        exact ⟨rfl, rfl⟩
      | deviated e g sdev =>
        rw [hrl] at hrc
        simp only [Prod.mk.injEq] at hrc
        rw [← hrc.1]
        exact ⟨rfl, rfl⟩
      | fuelOut sfo =>
        rw [hrl] at hrc
        simp only [Prod.mk.injEq] at hrc
        rcases hout with ⟨s, hs⟩ | ⟨e', g', s, hs⟩ <;> rw [hs] at hrc <;> cases hrc.2
  unfold runExperiment at h
  cases mode <;> cases ot <;> simp only [] at h <;>
    first
    | exact hmain _ h
    | (simp only [Prod.mk.injEq] at h
       rcases hout with ⟨s, hs⟩ | ⟨e', g', s, hs⟩ <;> rw [hs] at h <;> cases h.2)

/-- Concrete instantiation of the amended C7: the completed two-step
run finalizes and closes its trace file. -/
theorem c7_witness :
    (runExperiment c2cfg .normal 1 none (fun _ => "quit") 20).1.finalized = true ∧
    (runExperiment c2cfg .normal 1 none (fun _ => "quit") 20).1.closed = true := by
  exact c7_finalized_on_loop_exits c2cfg .normal 1 none (fun _ => "quit") 20 _ _
    rfl (Or.inl ⟨_, rfl⟩)

/-- C8 as stated is false: the run completes but the produced trace is
not the claimed eight-entry sequence — it additionally holds the
part_add entries recorded while constructing the parts and the
experiment_begin entry, all before at_part(start). -/
theorem c8_counterexample :
    (∃ s, c8run = (⟨true, true, true⟩, .ok s)) ∧ traceOf c8run.2 ≠ c8claimed := by
  constructor
  · exact ⟨_, rfl⟩
  · intro hcontra
    have hlen : (traceOf c8run.2).length = c8claimed.length :=
      congrArg List.length hcontra
    have h12 : (traceOf c8run.2).length = 12 := rfl
    have h8 : c8claimed.length = 8 := rfl
    rw [h12, h8] at hlen
    omega

theorem visitedNames_single_not_atPart (e : TEntry)
    (he : (match e with | .atPart _ => true | _ => false) = false) :
    visitedNames [e] = [] := by
  cases e <;> simp [visitedNames] <;> cases he

theorem runPart_visited (ctx : Ctx) (nm : String) (st : LoopSt) :
    visitedNames (runPart ctx nm st).2.trace = visitedNames st.trace := by
  unfold runPart
  cases hp : lookupPart ctx nm with
  | none => rfl
  | some p =>
    obtain ⟨k, np⟩ := p
    cases k with
    | step run =>
      cases hr : run st.committed with
      | ok v =>
        obtain ⟨a, b⟩ := v
        simp [hr, visitedNames_append, visitedNames]
      | error e => simp [hr, pushE, visitedNames_append, visitedNames]
    | decision dec =>
      cases hr : dec st.committed with
      | ok v =>
        obtain ⟨a, b⟩ := v
        simp [hr, pushE, visitedNames_append, visitedNames]
      | error e => simp [hr, pushE, visitedNames_append, visitedNames]
    | flow beg fin =>
      cases hr : beg st.committed with
      | ok v =>
        obtain ⟨a, b⟩ := v
        simp [hr, visitedNames_append, visitedNames]
      | error e => simp [hr, pushE, visitedNames_append, visitedNames]

theorem runPart_pathIndex (ctx : Ctx) (nm : String) (st : LoopSt) :
    (runPart ctx nm st).2.pathIndex = st.pathIndex := by
  unfold runPart
  cases hp : lookupPart ctx nm with
  | none => rfl
  | some p =>
    obtain ⟨k, np⟩ := p
    cases k with
    | step run => cases hr : run st.committed with
      | ok v => obtain ⟨a, b⟩ := v; simp [hr, pushE]
      | error e => simp [hr, pushE]
    | decision dec => cases hr : dec st.committed with
      | ok v => obtain ⟨a, b⟩ := v; simp [hr, pushE]
      | error e => simp [hr, pushE]
    | flow beg fin => cases hr : beg st.committed with
      | ok v => obtain ⟨a, b⟩ := v; simp [hr, pushE]
      | error e => simp [hr, pushE]

theorem endFlowStep_visited (ctx : Ctx) (st : LoopSt) :
    visitedNames (endFlowStep ctx st).2.trace = visitedNames st.trace := by
  unfold endFlowStep
  cases hl : st.flowStack.getLast? with
  | none => rfl
  | some fname =>
    cases hp : lookupPart ctx fname with
    | none => simp [hp, pushE, visitedNames_append, visitedNames]
    | some p =>
      obtain ⟨k, np⟩ := p
      cases k with
      | step run => simp [hp, pushE, visitedNames_append, visitedNames]
      | decision dec => simp [hp, pushE, visitedNames_append, visitedNames]
      | flow beg fin =>
        cases hr : fin st.committed with
        | ok pd => simp [hp, hr, pushE, visitedNames_append, visitedNames]
        | error e => simp [hp, hr, pushE, visitedNames_append, visitedNames]

theorem endFlowStep_pathIndex (ctx : Ctx) (st : LoopSt) :
    (endFlowStep ctx st).2.pathIndex = st.pathIndex := by
  unfold endFlowStep
  cases hl : st.flowStack.getLast? with
  | none => rfl
  | some fname =>
    cases hp : lookupPart ctx fname with
    | none => simp [hp, pushE]
    | some p =>
      obtain ⟨k, np⟩ := p
      cases k with
      | step run => simp [hp, pushE]
      | decision dec => simp [hp, pushE]
      | flow beg fin =>
        cases hr : fin st.committed with
        | ok pd => simp [hp, hr, pushE]
        | error e => simp [hp, hr, pushE]

theorem teardownN_visited (ctx : Ctx) :
    ∀ n st, visitedNames (teardownN ctx n st).trace = visitedNames st.trace := by
  intro n
  induction n with
  | zero => intro st; rfl
  | succ k ih =>
    intro st
    show visitedNames (teardownN ctx k (endFlowStep ctx st).2).trace = _
    rw [ih, endFlowStep_visited]

theorem teardownN_asks (ctx : Ctx) :
    ∀ n st, (teardownN ctx n st).asks = st.asks := by
  intro n
  induction n with
  | zero => intro st; rfl
  | succ k ih =>
    intro st
    show (teardownN ctx k (endFlowStep ctx st).2).asks = _
    rw [ih, endFlowStep_asks]

theorem teardown_visited (ctx : Ctx) (st : LoopSt) :
    visitedNames (teardown ctx st).trace = visitedNames st.trace := by
  unfold teardown
  rw [pushE_trace, visitedNames_append, teardownN_visited]
  simp [visitedNames]

theorem teardown_asks (ctx : Ctx) (st : LoopSt) :
    (teardown ctx st).asks = st.asks := by
  unfold teardown
  rw [pushE_asks, teardownN_asks]

/-- Each loop iteration that proceeds or stops records exactly one new
at_part entry, naming the current part. -/
theorem loopIter_visits (ctx : Ctx) (st : LoopSt) :
    (∀ st', loopIter ctx st = .proceed st' →
      visitedNames st'.trace = visitedNames st.trace ++ [st.current]) ∧
    (∀ st', loopIter ctx st = .stopRun st' →
      visitedNames st'.trace = visitedNames st.trace ++ [st.current]) := by
  have hat : visitedNames (pushE st (.atPart st.current)).trace =
      visitedNames st.trace ++ [st.current] := by
    rw [pushE_trace, visitedNames_append]
    rfl
  have hbody : (∀ st', loopBody ctx st = .proceed st' →
      visitedNames st'.trace = visitedNames st.trace ++ [st.current]) ∧
      (∀ st', loopBody ctx st = .stopRun st' →
        visitedNames st'.trace = visitedNames st.trace ++ [st.current]) := by
    unfold loopBody
    by_cases h1 : st.current = some "quit"
    · simp only [h1, if_true, pushE_pathIndex, pushE_asks]
      by_cases h2 : st.pathIndex + 1 < ctx.oldPath.length
      · simp only [h2, if_true]
        constructor
        · intro st' hst'
          cases hst'
          simp only [advance_trace, pushE_trace, visitedNames_append]
          rw [← h1]
          simp [visitedNames, List.append_assoc]
        · intro st' hst'; cases hst'
      · simp only [h2, if_false]
        by_cases h3 : ctx.mode = EMode.continueMode ∧
            st.pathIndex + 1 = ctx.oldPath.length
        · simp only [h3, and_self, if_true, askResearcher]
          constructor
          · intro st' hst'
            cases hst'
            simp only [advance_trace, pushE_trace, visitedNames_append]
            rw [← h1]
            simp [visitedNames, List.append_assoc]
          · intro st' hst'; cases hst'
        · simp only [if_neg h3]
          constructor
          · intro st' hst'; cases hst'
          · intro st' hst'
            cases hst'
            rw [← h1]
            exact hat
    · by_cases h2 : st.current = some "done"
      · simp only [h1, if_false, h2, if_true]
        rcases hef : endFlowStep ctx (pushE st (TEntry.atPart (some "done"))) with ⟨nx, st2⟩
        have hv2 : visitedNames st2.trace = visitedNames st.trace ++ [some "done"] := by
          have := endFlowStep_visited ctx (pushE st (TEntry.atPart (some "done")))
          rw [hef] at this
          rw [this, pushE_trace, visitedNames_append]
          rfl
        simp only [h2, hef]
        constructor
        · intro st' hst'
          cases hst'
          simpa using hv2
        · intro st' hst'; cases hst'
      · simp only [h1, if_false, h2, if_false]
        have hund : (∀ st', undecidedStep ctx (pushE st (.atPart st.current)) = .proceed st' →
            visitedNames st'.trace = visitedNames st.trace ++ [st.current]) ∧
            (∀ st', undecidedStep ctx (pushE st (.atPart st.current)) = .stopRun st' →
              visitedNames st'.trace = visitedNames st.trace ++ [st.current]) := by
          unfold undecidedStep
          simp only [pushE_pathIndex, pushE_asks]
          by_cases h3 : st.pathIndex + 1 < ctx.oldPath.length
          · simp only [h3, if_true]
            constructor
            · intro st' hst'
              cases hst'
              simp only [advance_trace, pushE_trace, visitedNames_append]
              simp [visitedNames, List.append_assoc]
            · intro st' hst'; cases hst'
          · simp only [h3, if_false, askResearcher]
            constructor
            · intro st' hst'
              cases hst'
              simp only [advance_trace, pushE_trace, visitedNames_append]
              simp [visitedNames, List.append_assoc]
            · intro st' hst'; cases hst'
        cases hc : st.current with
        | none =>
          rw [hc] at hund
          exact hund
        | some nm =>
          rw [hc] at hund
          by_cases h3 : (lookupPart ctx nm).isSome
          · simp only [h3, if_true]
            rcases hrp : runPart ctx nm (pushE st (TEntry.atPart (some nm))) with ⟨nx, st2⟩
            have hv2 : visitedNames st2.trace = visitedNames st.trace ++ [some nm] := by
              have := runPart_visited ctx nm (pushE st (TEntry.atPart (some nm)))
              rw [hrp] at this
              rw [this, pushE_trace, visitedNames_append]
              rfl
            constructor
            · intro st' hst'
              cases hst'
              simpa [hc] using hv2
            · intro st' hst'; cases hst'
          · simp only [h3, if_false]
            exact hund
  unfold loopIter
  cases hg : ctx.oldPath.get? st.pathIndex with
  | some q =>
    by_cases hqn : q.part_name = st.current
    · simpa [hqn] using hbody
    · simp only [hqn, if_false]
      constructor
      · intro st' hst'
        cases hst'
      · intro st' hst'
        cases hst'
  | none => exact hbody

/-- A finished run visits its current part first: futureVisits starts
with the current name. -/
theorem futureVisits_head (ctx : Ctx) (fuel : Nat) (st : LoopSt) (s : LoopSt)
    (h : runLoop ctx fuel st = .finished s) :
    ∃ rest, futureVisits ctx fuel st = st.current :: rest := by
  cases fuel with
  | zero => cases h
  | succ n =>
    unfold runLoop at h
    unfold futureVisits
    cases hit : loopIter ctx st with
    | proceed st' => exact ⟨_, rfl⟩
    | stopRun st' => exact ⟨[], rfl⟩
    | deviate e g st' => rw [hit] at h; cases h

/-- The visit decomposition of a finished run: the final trace visits
are the visits so far plus the future visits from the current state. -/
theorem runLoop_visits (ctx : Ctx) :
    ∀ fuel st s, runLoop ctx fuel st = .finished s →
      visitedNames s.trace = visitedNames st.trace ++ futureVisits ctx fuel st := by
  intro fuel
  induction fuel with
  | zero => intro st s h; cases h
  | succ n ih =>
    intro st s h
    unfold runLoop at h
    unfold futureVisits
    cases hit : loopIter ctx st with
    | proceed st' =>
      rw [hit] at h
      have h1 := (loopIter_visits ctx st).1 st' hit
      have h2 := ih st' s h
      rw [h2, h1, List.append_assoc]
      rfl
    | stopRun st' =>
      rw [hit] at h
      simp only [RunResult.finished.injEq] at h
      subst h
      have h1 := (loopIter_visits ctx st).2 st' hit
      rw [teardown_visited, h1]
    | deviate e g st' =>
      rw [hit] at h
      cases h

theorem lookupPart_congr (ctxA ctxB : Ctx) (hp : ctxB.parts = ctxA.parts)
    (nm : String) : lookupPart ctxB nm = lookupPart ctxA nm := by
  unfold lookupPart
  rw [hp]

/-- Running the same part from two states that agree on the committed
data and the flow stack produces the same next name, the same committed
data and the same flow stack (the trace and counters may differ). -/
theorem runPart_congr (ctxA ctxB : Ctx) (hp : ctxB.parts = ctxA.parts)
    (nm : String) (stA stB : LoopSt)
    (hc : stB.committed = stA.committed) (hf : stB.flowStack = stA.flowStack) :
    (runPart ctxB nm stB).1 = (runPart ctxA nm stA).1 ∧
    (runPart ctxB nm stB).2.committed = (runPart ctxA nm stA).2.committed ∧
    (runPart ctxB nm stB).2.flowStack = (runPart ctxA nm stA).2.flowStack := by
  have hl := lookupPart_congr ctxA ctxB hp nm
  cases hpA : lookupPart ctxA nm with
  | none =>
    have heqA : runPart ctxA nm stA = (none, stA) := by unfold runPart; rw [hpA]
    have heqB : runPart ctxB nm stB = (none, stB) := by unfold runPart; rw [hl, hpA]
    rw [heqA, heqB]
    exact ⟨rfl, hc, hf⟩
  | some p =>
    obtain ⟨k, np⟩ := p
    cases k with
    | step run =>
      cases hr : run stA.committed with
      | ok v =>
        obtain ⟨a, b⟩ := v
        have hrB : run stB.committed = .ok (a, b) := by rw [hc]; exact hr
        have heqA : runPart ctxA nm stA =
            (lookupRoute np "",
              { stA with trace := stA.trace ++ [.stepE nm stA.committed a b],
                         committed := a }) := by
          unfold runPart; rw [hpA]; simp only [hr]
        have heqB : runPart ctxB nm stB =
            (lookupRoute np "",
              { stB with trace := stB.trace ++ [.stepE nm stB.committed a b],
                         committed := a }) := by
          unfold runPart; rw [hl, hpA]; simp only [hrB]
        rw [heqA, heqB]
        exact ⟨rfl, rfl, by simp [hf]⟩
      | error e =>
        have hrB : run stB.committed = .error e := by rw [hc]; exact hr
        have heqA : runPart ctxA nm stA = (none, pushE stA (.errorE nm e)) := by
          unfold runPart; rw [hpA]; simp only [hr]
        have heqB : runPart ctxB nm stB = (none, pushE stB (.errorE nm e)) := by
          unfold runPart; rw [hl, hpA]; simp only [hrB]
        rw [heqA, heqB]
        exact ⟨rfl, by simp [hc], by simp [hf]⟩
    | decision dec =>
      cases hr : dec stA.committed with
      | ok v =>
        obtain ⟨a, b⟩ := v
        have hrB : dec stB.committed = .ok (a, b) := by rw [hc]; exact hr
        refine ⟨?_, ?_, ?_⟩ <;>
        · unfold runPart
          rw [hl, hpA]
          simp only [hr, hrB] <;> cases a <;> simp [hc, hf, pushE]
      | error e =>
        have hrB : dec stB.committed = .error e := by rw [hc]; exact hr
        have heqA : runPart ctxA nm stA = (none, pushE stA (.errorE nm e)) := by
          unfold runPart; rw [hpA]; simp only [hr]
        have heqB : runPart ctxB nm stB = (none, pushE stB (.errorE nm e)) := by
          unfold runPart; rw [hl, hpA]; simp only [hrB]
        rw [heqA, heqB]
        exact ⟨rfl, by simp [hc], by simp [hf]⟩
    | flow beg fin =>
      cases hr : beg stA.committed with
      | ok v =>
        obtain ⟨a, b⟩ := v
        have hrB : beg stB.committed = .ok (a, b) := by rw [hc]; exact hr
        have heqA : runPart ctxA nm stA =
            (a, { stA with flowStack := stA.flowStack ++ [nm],
                           trace := stA.trace ++ [.flowBegin nm a b] }) := by
          unfold runPart; rw [hpA]; simp only [hr]
        have heqB : runPart ctxB nm stB =
            (a, { stB with flowStack := stB.flowStack ++ [nm],
                           trace := stB.trace ++ [.flowBegin nm a b] }) := by
          unfold runPart; rw [hl, hpA]; simp only [hrB]
        rw [heqA, heqB]
        exact ⟨rfl, by simp [hc], by simp [hf]⟩
      | error e =>
        have hrB : beg stB.committed = .error e := by rw [hc]; exact hr
        have heqA : runPart ctxA nm stA = (none, pushE stA (.errorE nm e)) := by
          unfold runPart; rw [hpA]; simp only [hr]
        have heqB : runPart ctxB nm stB = (none, pushE stB (.errorE nm e)) := by
          unfold runPart; rw [hl, hpA]; simp only [hrB]
        rw [heqA, heqB]
        exact ⟨rfl, by simp [hc], by simp [hf]⟩

/-- Ending the innermost flow from two states that agree on the
committed data and the flow stack produces the same next name, the same
committed data and the same flow stack. -/
theorem endFlowStep_congr (ctxA ctxB : Ctx) (hp : ctxB.parts = ctxA.parts)
    (stA stB : LoopSt)
    (hc : stB.committed = stA.committed) (hf : stB.flowStack = stA.flowStack) :
    (endFlowStep ctxB stB).1 = (endFlowStep ctxA stA).1 ∧
    (endFlowStep ctxB stB).2.committed = (endFlowStep ctxA stA).2.committed ∧
    (endFlowStep ctxB stB).2.flowStack = (endFlowStep ctxA stA).2.flowStack := by
  cases hlast : stA.flowStack.getLast? with
  | none =>
    have hlastB : stB.flowStack.getLast? = none := by rw [hf]; exact hlast
    have heqA : endFlowStep ctxA stA = (some "quit", stA) := by
      unfold endFlowStep; rw [hlast]
    have heqB : endFlowStep ctxB stB = (some "quit", stB) := by
      unfold endFlowStep; rw [hlastB]
    rw [heqA, heqB]
    exact ⟨rfl, hc, hf⟩
  | some fname =>
    have hlastB : stB.flowStack.getLast? = some fname := by rw [hf]; exact hlast
    have hl := lookupPart_congr ctxA ctxB hp fname
    cases hpA : lookupPart ctxA fname with
    | none =>
      have heqA : endFlowStep ctxA stA =
          (none, pushE { stA with flowStack := stA.flowStack.dropLast }
            (.errorE fname "missing part")) := by
        unfold endFlowStep; rw [hlast]; simp only [hpA]
      have heqB : endFlowStep ctxB stB =
          (none, pushE { stB with flowStack := stB.flowStack.dropLast }
            (.errorE fname "missing part")) := by
        unfold endFlowStep; rw [hlastB]; simp only [hl, hpA]
      rw [heqA, heqB]
      exact ⟨rfl, by simp [hc], by simp [hf]⟩
    | some p =>
      obtain ⟨k, np⟩ := p
      cases k with
      | step run =>
        have heqA : endFlowStep ctxA stA =
            (none, pushE { stA with flowStack := stA.flowStack.dropLast }
              (.errorE fname "not a flow")) := by
          unfold endFlowStep; rw [hlast]; simp only [hpA]
        have heqB : endFlowStep ctxB stB =
            (none, pushE { stB with flowStack := stB.flowStack.dropLast }
              (.errorE fname "not a flow")) := by
          unfold endFlowStep; rw [hlastB]; simp only [hl, hpA]
        rw [heqA, heqB]
        exact ⟨rfl, by simp [hc], by simp [hf]⟩
      | decision dec =>
        have heqA : endFlowStep ctxA stA =
            (none, pushE { stA with flowStack := stA.flowStack.dropLast }
              (.errorE fname "not a flow")) := by
          unfold endFlowStep; rw [hlast]; simp only [hpA]
        have heqB : endFlowStep ctxB stB =
            (none, pushE { stB with flowStack := stB.flowStack.dropLast }
              (.errorE fname "not a flow")) := by
          unfold endFlowStep; rw [hlastB]; simp only [hl, hpA]
        rw [heqA, heqB]
        exact ⟨rfl, by simp [hc], by simp [hf]⟩
      | flow beg fin =>
        cases hr : fin stA.committed with
        | ok pd =>
          have hrB : fin stB.committed = .ok pd := by rw [hc]; exact hr
          have heqA : endFlowStep ctxA stA =
              (lookupRoute np "",
                pushE { stA with flowStack := stA.flowStack.dropLast }
                  (.flowEnd fname pd)) := by
            unfold endFlowStep; rw [hlast]; simp only [hpA, hr]
          have heqB : endFlowStep ctxB stB =
              (lookupRoute np "",
                pushE { stB with flowStack := stB.flowStack.dropLast }
                  (.flowEnd fname pd)) := by
            unfold endFlowStep; rw [hlastB]; simp only [hl, hpA, hrB]
          rw [heqA, heqB]
          exact ⟨rfl, by simp [hc], by simp [hf]⟩
        | error e =>
          have hrB : fin stB.committed = .error e := by rw [hc]; exact hr
          have heqA : endFlowStep ctxA stA =
              (none, pushE { stA with flowStack := stA.flowStack.dropLast }
                (.errorE fname e)) := by
            unfold endFlowStep; rw [hlast]; simp only [hpA, hr]
          have heqB : endFlowStep ctxB stB =
              (none, pushE { stB with flowStack := stB.flowStack.dropLast }
                (.errorE fname e)) := by
            unfold endFlowStep; rw [hlastB]; simp only [hl, hpA, hrB]
          rw [heqA, heqB]
          exact ⟨rfl, by simp [hc], by simp [hf]⟩

theorem pieces_at (oldPath : List Piece) (pre rest : List (Option String))
    (x : Option String)
    (hdec : oldPath.map Piece.part_name = pre ++ x :: rest) :
    ∃ q, oldPath.get? pre.length = some q ∧ q.part_name = x := by
  have h1 : (oldPath.map Piece.part_name).get? pre.length = some x := by
    rw [hdec, List.get?_append_right (Nat.le_refl _)]
    simp
  rw [List.get?_map] at h1
  cases hq : oldPath.get? pre.length with
  | none => rw [hq] at h1; cases h1
  | some q =>
    rw [hq] at h1
    simp only [Option.map_some', Option.some.injEq] at h1
    exact ⟨q, rfl, h1⟩

theorem pieces_at_succ (oldPath : List Piece) (pre rest : List (Option String))
    (x y : Option String)
    (hdec : oldPath.map Piece.part_name = pre ++ x :: y :: rest) :
    ∃ q, oldPath.get? (pre.length + 1) = some q ∧ q.part_name = y := by
  have hdec' : oldPath.map Piece.part_name = (pre ++ [x]) ++ y :: rest := by
    rw [hdec]
    simp
  have := pieces_at oldPath (pre ++ [x]) rest y hdec'
  simpa using this

theorem get?_nil (n : Nat) : ([] : List Piece).get? n = none := by
  cases n <;> rfl

theorem getD_of_get? {l : List Piece} {i : Nat} {x : Piece} {d : Piece}
    (h : l.get? i = some x) : l.getD i d = x := by
  induction l generalizing i with
  | nil => cases h
  | cons a as ih =>
    cases i with
    | zero => cases h; rfl
    | succ j => exact ih (by simpa using h)

/-- When the deviation check passes (the index is past the old path, or
the historical name matches), the iteration is the plain loop body. -/
theorem loopIter_pass (ctx : Ctx) (st : LoopSt)
    (hpass : ∀ q, ctx.oldPath.get? st.pathIndex = some q → q.part_name = st.current) :
    loopIter ctx st = loopBody ctx st := by
  unfold loopIter
  cases hg : ctx.oldPath.get? st.pathIndex with
  | none => rfl
  | some q => simp [hpass q hg]

theorem loopBody_quit_stop (ctx : Ctx) (st : LoopSt)
    (hq : st.current = some "quit")
    (h1 : ¬ (st.pathIndex + 1 < ctx.oldPath.length))
    (h2 : ¬ (ctx.mode = .continueMode ∧ st.pathIndex + 1 = ctx.oldPath.length)) :
    loopBody ctx st = .stopRun (pushE st (.atPart st.current)) := by
  unfold loopBody
  rw [if_pos hq]
  simp only [pushE_pathIndex]
  rw [if_neg h1, if_neg h2]

theorem loopBody_done (ctx : Ctx) (st : LoopSt)
    (hq : ¬ (st.current = some "quit")) (hd : st.current = some "done") :
    loopBody ctx st = .proceed
      (advance (endFlowStep ctx (pushE st (.atPart st.current))).2
        (endFlowStep ctx (pushE st (.atPart st.current))).1) := by
  unfold loopBody
  rw [if_neg hq, if_pos hd]

theorem loopBody_run (ctx : Ctx) (st : LoopSt) (nm : String)
    (hq : ¬ (st.current = some "quit")) (hd : ¬ (st.current = some "done"))
    (hc2 : st.current = some nm) (hsome : (lookupPart ctx nm).isSome) :
    loopBody ctx st = .proceed
      (advance (runPart ctx nm (pushE st (.atPart st.current))).2
        (runPart ctx nm (pushE st (.atPart st.current))).1) := by
  unfold loopBody
  rw [if_neg hq, if_neg hd, hc2]
  simp only [hsome, if_true]

theorem loopBody_undecided_replay (ctx : Ctx) (st : LoopSt)
    (hq : ¬ (st.current = some "quit")) (hd : ¬ (st.current = some "done"))
    (hund : st.current = none ∨ ∃ nm, st.current = some nm ∧ lookupPart ctx nm = none)
    (hlt : st.pathIndex + 1 < ctx.oldPath.length) :
    loopBody ctx st = .proceed
      (advance (pushE (pushE st (.atPart st.current))
          (.researcherDecision
            (convertToShortName (ctx.oldPath.getD (st.pathIndex + 1) default).part_name)))
        (convertToShortName (ctx.oldPath.getD (st.pathIndex + 1) default).part_name)) := by
  unfold loopBody
  rw [if_neg hq, if_neg hd]
  rcases hund with hnone | ⟨nm, hnm, hlook⟩
  · rw [hnone]
    unfold undecidedStep
    simp only [pushE_pathIndex, hlt, if_true]
  · rw [hnm]
    simp only []
    have hns : ¬ ((lookupPart ctx nm).isSome = true) := by rw [hlook]; simp
    rw [if_neg hns]
    unfold undecidedStep
    simp only [pushE_pathIndex, hlt, if_true]

theorem loopBody_undecided_ask (ctx : Ctx) (st : LoopSt)
    (hq : ¬ (st.current = some "quit")) (hd : ¬ (st.current = some "done"))
    (hund : st.current = none ∨ ∃ nm, st.current = some nm ∧ lookupPart ctx nm = none)
    (hge : ¬ (st.pathIndex + 1 < ctx.oldPath.length)) :
    loopBody ctx st = .proceed
      (advance
        (pushE
          { st with trace := st.trace ++ [.atPart st.current],
                    asks := st.asks + 1 }
          (.researcherDecision (some (ctx.researcher st.asks))))
        (some (ctx.researcher st.asks))) := by
  unfold loopBody
  rw [if_neg hq, if_neg hd]
  rcases hund with hnone | ⟨nm, hnm, hlook⟩
  · rw [hnone]
    unfold undecidedStep
    simp only [pushE_pathIndex, hge, if_false, askResearcher, pushE_asks]
    rfl
  · rw [hnm]
    simp only []
    have hns : ¬ ((lookupPart ctx nm).isSome = true) := by rw [hlook]; simp
    rw [if_neg hns]
    unfold undecidedStep
    simp only [pushE_pathIndex, hge, if_false, askResearcher, pushE_asks]
    rfl

theorem futureVisits_succ (ctx : Ctx) (n : Nat) (st : LoopSt) :
    futureVisits ctx (n + 1) st =
      match loopIter ctx st with
      | .proceed st' => st.current :: futureVisits ctx n st'
      | .stopRun _ => [st.current]
      | .deviate _ _ _ => [] := rfl

/-- The simulation behind C3: a rerun driven by the part path of a
finished normal run retraces it exactly.  At each iteration the rerun
state agrees with the normal state on the committed data, the flow
stack and the current name; the old path decomposes into the names the
rerun has already visited plus the names the normal run will visit; and
the rerun path index counts the visits so far.  Then the rerun finishes
with the same visit sequence and never prompts the researcher. -/
theorem rerun_sim (parts : List (String × Part)) (eN eR : String) (rnN rnR : Nat)
    (rN rR : Nat → String) (oldPath : List Piece) (hv : ValidOracle rN) :
    ∀ fuel st stR s,
      runLoop ⟨eN, rnN, parts, .normal, [], rN⟩ fuel st = .finished s →
      stR.committed = st.committed →
      stR.flowStack = st.flowStack →
      stR.current = st.current →
      oldPath.map Piece.part_name =
        visitedNames stR.trace ++
          futureVisits ⟨eN, rnN, parts, .normal, [], rN⟩ fuel st →
      stR.pathIndex = (visitedNames stR.trace).length →
      ∃ sR, runLoop ⟨eR, rnR, parts, .rerun, oldPath, rR⟩ fuel stR = .finished sR ∧
        visitedNames sR.trace =
          visitedNames stR.trace ++
            futureVisits ⟨eN, rnN, parts, .normal, [], rN⟩ fuel st ∧
        sR.asks = stR.asks := by
  intro fuel
  induction fuel with
  | zero =>
    intro st stR s hrun hc hf hcur hdec hk
    cases hrun
  | succ n ih =>
    intro st stR s hrun hc hf hcur hdec hk
    have hpassN : ∀ q,
        (⟨eN, rnN, parts, .normal, [], rN⟩ : Ctx).oldPath.get? st.pathIndex = some q →
        q.part_name = st.current := by
      intro q hqe
      rw [show (⟨eN, rnN, parts, .normal, [], rN⟩ : Ctx).oldPath = ([] : List Piece)
        from rfl, get?_nil] at hqe
      cases hqe
    unfold runLoop at hrun
    by_cases hq : st.current = some "quit"
    · -- the normal run stops at this quit; the rerun is at the last
      -- history position and stops too
      have hiterN : loopIter (⟨eN, rnN, parts, .normal, [], rN⟩ : Ctx) st =
          .stopRun (pushE st (.atPart st.current)) := by
        rw [loopIter_pass _ _ hpassN]
        exact loopBody_quit_stop _ _ hq (by simp)
          (by rintro ⟨hm, _⟩; exact EMode.noConfusion hm)
      rw [hiterN] at hrun
      simp only [RunResult.finished.injEq] at hrun
      have hfut : futureVisits (⟨eN, rnN, parts, .normal, [], rN⟩ : Ctx) (n + 1) st =
          [st.current] := by
        rw [futureVisits_succ, hiterN]
      rw [hfut] at hdec
      obtain ⟨qq, hq1, hq2⟩ := pieces_at oldPath (visitedNames stR.trace) [] st.current hdec
      have hq1' : oldPath.get? stR.pathIndex = some qq := by rw [hk]; exact hq1
      have hpassR : ∀ q,
          (⟨eR, rnR, parts, .rerun, oldPath, rR⟩ : Ctx).oldPath.get? stR.pathIndex = some q →
          q.part_name = stR.current := by
        intro q hqe
        rw [show (⟨eR, rnR, parts, .rerun, oldPath, rR⟩ : Ctx).oldPath = oldPath
          from rfl, hq1'] at hqe
        injection hqe with hqq
        rw [← hqq, hq2, hcur]
      have hlenR : oldPath.length = (visitedNames stR.trace).length + 1 := by
        have := congrArg List.length hdec
        simpa using this
      have hiterR : loopIter (⟨eR, rnR, parts, .rerun, oldPath, rR⟩ : Ctx) stR =
          .stopRun (pushE stR (.atPart stR.current)) := by
        rw [loopIter_pass _ _ hpassR]
        apply loopBody_quit_stop
        · rw [hcur]; exact hq
        · show ¬ (stR.pathIndex + 1 < oldPath.length)
          rw [hk, hlenR]
          omega
        · rintro ⟨hm, _⟩
          exact EMode.noConfusion hm
      refine ⟨teardown (⟨eR, rnR, parts, .rerun, oldPath, rR⟩ : Ctx)
        (pushE stR (.atPart stR.current)), ?_, ?_, ?_⟩
      · show runLoop _ (n + 1) stR = _
        unfold runLoop
        rw [hiterR]
      · rw [hfut, teardown_visited, pushE_trace, visitedNames_append, hcur]
        rfl
      · rw [teardown_asks, pushE_asks]
    · by_cases hd : st.current = some "done"
      · -- the done command: both sides end the innermost flow
        have hiterN : loopIter (⟨eN, rnN, parts, .normal, [], rN⟩ : Ctx) st =
            .proceed (advance
              (endFlowStep (⟨eN, rnN, parts, .normal, [], rN⟩ : Ctx)
                (pushE st (.atPart st.current))).2
              (endFlowStep (⟨eN, rnN, parts, .normal, [], rN⟩ : Ctx)
                (pushE st (.atPart st.current))).1) := by
          rw [loopIter_pass _ _ hpassN]
          exact loopBody_done _ _ hq hd
        rw [hiterN] at hrun
        simp only [] at hrun
        have hfut : futureVisits (⟨eN, rnN, parts, .normal, [], rN⟩ : Ctx) (n + 1) st =
            st.current :: futureVisits (⟨eN, rnN, parts, .normal, [], rN⟩ : Ctx) n
              (advance
                (endFlowStep (⟨eN, rnN, parts, .normal, [], rN⟩ : Ctx)
                  (pushE st (.atPart st.current))).2
                (endFlowStep (⟨eN, rnN, parts, .normal, [], rN⟩ : Ctx)
                  (pushE st (.atPart st.current))).1) := by
          rw [futureVisits_succ, hiterN]
        rw [hfut] at hdec
        obtain ⟨qq, hq1, hq2⟩ := pieces_at oldPath (visitedNames stR.trace) _ st.current hdec
        have hq1' : oldPath.get? stR.pathIndex = some qq := by rw [hk]; exact hq1
        have hpassR : ∀ q,
            (⟨eR, rnR, parts, .rerun, oldPath, rR⟩ : Ctx).oldPath.get? stR.pathIndex = some q →
            q.part_name = stR.current := by
          intro q hqe
          rw [show (⟨eR, rnR, parts, .rerun, oldPath, rR⟩ : Ctx).oldPath = oldPath
            from rfl, hq1'] at hqe
          injection hqe with hqq
          rw [← hqq, hq2, hcur]
        have hiterR : loopIter (⟨eR, rnR, parts, .rerun, oldPath, rR⟩ : Ctx) stR =
            .proceed (advance
              (endFlowStep (⟨eR, rnR, parts, .rerun, oldPath, rR⟩ : Ctx)
                (pushE stR (.atPart stR.current))).2
              (endFlowStep (⟨eR, rnR, parts, .rerun, oldPath, rR⟩ : Ctx)
                (pushE stR (.atPart stR.current))).1) := by
          rw [loopIter_pass _ _ hpassR]
          exact loopBody_done _ _ (by rw [hcur]; exact hq) (by rw [hcur]; exact hd)
        have hcg := endFlowStep_congr
          (⟨eN, rnN, parts, .normal, [], rN⟩ : Ctx)
          (⟨eR, rnR, parts, .rerun, oldPath, rR⟩ : Ctx) rfl
          (pushE st (.atPart st.current)) (pushE stR (.atPart stR.current))
          (by simpa using hc) (by simpa using hf)
        have hvR' : visitedNames (advance
            (endFlowStep (⟨eR, rnR, parts, .rerun, oldPath, rR⟩ : Ctx)
              (pushE stR (.atPart stR.current))).2
            (endFlowStep (⟨eR, rnR, parts, .rerun, oldPath, rR⟩ : Ctx)
              (pushE stR (.atPart stR.current))).1).trace =
            visitedNames stR.trace ++ [st.current] := by
          rw [advance_trace, endFlowStep_visited, pushE_trace, visitedNames_append, hcur]
          rfl
        obtain ⟨sR, hrunR, hvisR, hasksR⟩ := ih _ (advance
            (endFlowStep (⟨eR, rnR, parts, .rerun, oldPath, rR⟩ : Ctx)
              (pushE stR (.atPart stR.current))).2
            (endFlowStep (⟨eR, rnR, parts, .rerun, oldPath, rR⟩ : Ctx)
              (pushE stR (.atPart stR.current))).1) s hrun
          (by rw [advance_committed, advance_committed, hcg.2.1])
          (by rw [advance_flowStack, advance_flowStack, hcg.2.2])
          (by rw [advance_current, advance_current, hcg.1, hcg.2.2])
          (by rw [hvR', List.append_assoc]
              simpa using hdec)
          (by rw [hvR', advance_pathIndex, endFlowStep_pathIndex, pushE_pathIndex,
                List.length_append, hk]
              rfl)
        refine ⟨sR, ?_, ?_, ?_⟩
        · show runLoop _ (n + 1) stR = _
          unfold runLoop
          rw [hiterR]
          exact hrunR
        · rw [hfut, hvisR, hvR']
          simp
        · rw [hasksR, advance_asks, endFlowStep_asks, pushE_asks]
      · cases hcc : st.current with
        | some nm =>
          by_cases hsome :
              (lookupPart (⟨eN, rnN, parts, .normal, [], rN⟩ : Ctx) nm).isSome
          · -- a constructed part runs on both sides
            have hiterN : loopIter (⟨eN, rnN, parts, .normal, [], rN⟩ : Ctx) st =
                .proceed (advance
                  (runPart (⟨eN, rnN, parts, .normal, [], rN⟩ : Ctx) nm
                    (pushE st (.atPart st.current))).2
                  (runPart (⟨eN, rnN, parts, .normal, [], rN⟩ : Ctx) nm
                    (pushE st (.atPart st.current))).1) := by
              rw [loopIter_pass _ _ hpassN]
              exact loopBody_run _ _ nm hq hd hcc hsome
            rw [hiterN] at hrun
            simp only [] at hrun
            have hfut : futureVisits (⟨eN, rnN, parts, .normal, [], rN⟩ : Ctx) (n + 1) st =
                st.current :: futureVisits (⟨eN, rnN, parts, .normal, [], rN⟩ : Ctx) n
                  (advance
                    (runPart (⟨eN, rnN, parts, .normal, [], rN⟩ : Ctx) nm
                      (pushE st (.atPart st.current))).2
                    (runPart (⟨eN, rnN, parts, .normal, [], rN⟩ : Ctx) nm
                      (pushE st (.atPart st.current))).1) := by
              rw [futureVisits_succ, hiterN]
            rw [hfut] at hdec
            obtain ⟨qq, hq1, hq2⟩ :=
              pieces_at oldPath (visitedNames stR.trace) _ st.current hdec
            have hq1' : oldPath.get? stR.pathIndex = some qq := by rw [hk]; exact hq1
            have hpassR : ∀ q,
                (⟨eR, rnR, parts, .rerun, oldPath, rR⟩ : Ctx).oldPath.get?
                  stR.pathIndex = some q →
                q.part_name = stR.current := by
              intro q hqe
              rw [show (⟨eR, rnR, parts, .rerun, oldPath, rR⟩ : Ctx).oldPath = oldPath
                from rfl, hq1'] at hqe
              injection hqe with hqq
              rw [← hqq, hq2, hcur]
            have hiterR : loopIter (⟨eR, rnR, parts, .rerun, oldPath, rR⟩ : Ctx) stR =
                .proceed (advance
                  (runPart (⟨eR, rnR, parts, .rerun, oldPath, rR⟩ : Ctx) nm
                    (pushE stR (.atPart stR.current))).2
                  (runPart (⟨eR, rnR, parts, .rerun, oldPath, rR⟩ : Ctx) nm
                    (pushE stR (.atPart stR.current))).1) := by
              rw [loopIter_pass _ _ hpassR]
              exact loopBody_run _ _ nm (by rw [hcur]; exact hq) (by rw [hcur]; exact hd)
                (by rw [hcur]; exact hcc) hsome
            have hcg := runPart_congr
              (⟨eN, rnN, parts, .normal, [], rN⟩ : Ctx)
              (⟨eR, rnR, parts, .rerun, oldPath, rR⟩ : Ctx) rfl nm
              (pushE st (.atPart st.current)) (pushE stR (.atPart stR.current))
              (by simpa using hc) (by simpa using hf)
            have hvR' : visitedNames (advance
                (runPart (⟨eR, rnR, parts, .rerun, oldPath, rR⟩ : Ctx) nm
                  (pushE stR (.atPart stR.current))).2
                (runPart (⟨eR, rnR, parts, .rerun, oldPath, rR⟩ : Ctx) nm
                  (pushE stR (.atPart stR.current))).1).trace =
                visitedNames stR.trace ++ [st.current] := by
              rw [advance_trace, runPart_visited, pushE_trace, visitedNames_append, hcur]
              rfl
            obtain ⟨sR, hrunR, hvisR, hasksR⟩ := ih _ (advance
                (runPart (⟨eR, rnR, parts, .rerun, oldPath, rR⟩ : Ctx) nm
                  (pushE stR (.atPart stR.current))).2
                (runPart (⟨eR, rnR, parts, .rerun, oldPath, rR⟩ : Ctx) nm
                  (pushE stR (.atPart stR.current))).1) s hrun
              (by rw [advance_committed, advance_committed, hcg.2.1])
              (by rw [advance_flowStack, advance_flowStack, hcg.2.2])
              (by rw [advance_current, advance_current, hcg.1, hcg.2.2])
              (by rw [hvR', List.append_assoc]
                  simpa using hdec)
              (by rw [hvR', advance_pathIndex, runPart_pathIndex, pushE_pathIndex,
                    List.length_append, hk]
                  rfl)
            refine ⟨sR, ?_, ?_, ?_⟩
            · show runLoop _ (n + 1) stR = _
              unfold runLoop
              rw [hiterR]
              exact hrunR
            · rw [hfut, hvisR, hvR']
              simp
            · rw [hasksR, advance_asks, runPart_asks, pushE_asks]
          · -- undecided: the normal run prompts, the rerun replays
            have hundN : st.current = none ∨ ∃ nm',
                st.current = some nm' ∧
                lookupPart (⟨eN, rnN, parts, .normal, [], rN⟩ : Ctx) nm' = none :=
              Or.inr ⟨nm, hcc, by
                cases hlp : lookupPart (⟨eN, rnN, parts, .normal, [], rN⟩ : Ctx) nm with
                | none => rfl
                | some p => rw [hlp] at hsome; simp at hsome⟩
            have hiterN : loopIter (⟨eN, rnN, parts, .normal, [], rN⟩ : Ctx) st =
                .proceed (advance
                  (pushE
                    { st with trace := st.trace ++ [.atPart st.current],
                              asks := st.asks + 1 }
                    (.researcherDecision (some (rN st.asks))))
                  (some (rN st.asks))) := by
              rw [loopIter_pass _ _ hpassN]
              exact loopBody_undecided_ask _ _ hq hd hundN (by simp)
            rw [hiterN] at hrun
            simp only [] at hrun
            have hfut : futureVisits (⟨eN, rnN, parts, .normal, [], rN⟩ : Ctx) (n + 1) st =
                st.current :: futureVisits (⟨eN, rnN, parts, .normal, [], rN⟩ : Ctx) n
                  (advance
                    (pushE
                      { st with trace := st.trace ++ [.atPart st.current],
                                asks := st.asks + 1 }
                      (.researcherDecision (some (rN st.asks))))
                    (some (rN st.asks))) := by
              rw [futureVisits_succ, hiterN]
            obtain ⟨rest2, hfh⟩ := futureVisits_head _ n _ s hrun
            rw [hfut, hfh] at hdec
            obtain ⟨qq, hq1, hq2⟩ :=
              pieces_at oldPath (visitedNames stR.trace) _ st.current hdec
            have hq1' : oldPath.get? stR.pathIndex = some qq := by rw [hk]; exact hq1
            obtain ⟨qq2, hq1s, hq2s⟩ :=
              pieces_at_succ oldPath (visitedNames stR.trace) _ st.current _ hdec
            have hpassR : ∀ q,
                (⟨eR, rnR, parts, .rerun, oldPath, rR⟩ : Ctx).oldPath.get?
                  stR.pathIndex = some q →
                q.part_name = stR.current := by
              intro q hqe
              rw [show (⟨eR, rnR, parts, .rerun, oldPath, rR⟩ : Ctx).oldPath = oldPath
                from rfl, hq1'] at hqe
              injection hqe with hqq
              rw [← hqq, hq2, hcur]
            have hlenR : (visitedNames stR.trace).length + 2 ≤ oldPath.length := by
              have := congrArg List.length hdec
              simp at this
              omega
            have hundR : stR.current = none ∨ ∃ nm',
                stR.current = some nm' ∧
                lookupPart (⟨eR, rnR, parts, .rerun, oldPath, rR⟩ : Ctx) nm' = none := by
              rcases hundN with h0 | ⟨nm', h1, h2⟩
              · exact Or.inl (hcur.trans h0)
              · exact Or.inr ⟨nm', hcur.trans h1, h2⟩
            have hltR : stR.pathIndex + 1 <
                (⟨eR, rnR, parts, .rerun, oldPath, rR⟩ : Ctx).oldPath.length := by
              show stR.pathIndex + 1 < oldPath.length
              rw [hk]
              omega
            have hiterR : loopIter (⟨eR, rnR, parts, .rerun, oldPath, rR⟩ : Ctx) stR =
                .proceed (advance
                  (pushE (pushE stR (.atPart stR.current))
                    (.researcherDecision (convertToShortName
                      (oldPath.getD (stR.pathIndex + 1) default).part_name)))
                  (convertToShortName
                    (oldPath.getD (stR.pathIndex + 1) default).part_name)) := by
              rw [loopIter_pass _ _ hpassR]
              exact loopBody_undecided_replay _ _ (by rw [hcur]; exact hq)
                (by rw [hcur]; exact hd) hundR hltR
            have hgd : oldPath.getD (stR.pathIndex + 1) default = qq2 := by
              apply getD_of_get?
              rw [hk]
              exact hq1s
            have hnext : convertToShortName
                (oldPath.getD (stR.pathIndex + 1) default).part_name =
                some (rN st.asks) := by
              rw [hgd, hq2s]
              show convertToShortName
                (convertToFullName (some (rN st.asks)) st.flowStack) = some (rN st.asks)
              exact shortName_fullName _ _ (hv st.asks)
            rw [hnext] at hiterR
            have hvR' : visitedNames (advance
                (pushE (pushE stR (.atPart stR.current))
                  (.researcherDecision (some (rN st.asks))))
                (some (rN st.asks))).trace =
                visitedNames stR.trace ++ [st.current] := by
              rw [advance_trace, pushE_trace, pushE_trace, List.append_assoc,
                visitedNames_append, hcur]
              rfl
            obtain ⟨sR, hrunR, hvisR, hasksR⟩ := ih _ (advance
                (pushE (pushE stR (.atPart stR.current))
                  (.researcherDecision (some (rN st.asks))))
                (some (rN st.asks))) s hrun
              (by rw [advance_committed, advance_committed, pushE_committed,
                    pushE_committed, pushE_committed]
                  exact hc)
              (by rw [advance_flowStack, advance_flowStack, pushE_flowStack,
                    pushE_flowStack, pushE_flowStack]
                  exact hf)
              (by rw [advance_current, advance_current, pushE_flowStack,
                    pushE_flowStack, pushE_flowStack, hf])
              (by rw [hvR', hfh, List.append_assoc]
                  simpa using hdec)
              (by rw [hvR', advance_pathIndex, pushE_pathIndex, pushE_pathIndex,
                    List.length_append, hk]
                  rfl)
            refine ⟨sR, ?_, ?_, ?_⟩
            · show runLoop _ (n + 1) stR = _
              unfold runLoop
              rw [hiterR]
              exact hrunR
            · rw [hfut, hvisR, hvR', hfh]
              simp
            · rw [hasksR, advance_asks, pushE_asks, pushE_asks]
        | none =>
          -- same undecided handling with a missing current name
          have hundN : st.current = none ∨ ∃ nm',
              st.current = some nm' ∧
              lookupPart (⟨eN, rnN, parts, .normal, [], rN⟩ : Ctx) nm' = none :=
            Or.inl hcc
          have hiterN : loopIter (⟨eN, rnN, parts, .normal, [], rN⟩ : Ctx) st =
              .proceed (advance
                (pushE
                  { st with trace := st.trace ++ [.atPart st.current],
                            asks := st.asks + 1 }
                  (.researcherDecision (some (rN st.asks))))
                (some (rN st.asks))) := by
            rw [loopIter_pass _ _ hpassN]
            exact loopBody_undecided_ask _ _ hq hd hundN (by simp)
          rw [hiterN] at hrun
          simp only [] at hrun
          have hfut : futureVisits (⟨eN, rnN, parts, .normal, [], rN⟩ : Ctx) (n + 1) st =
              st.current :: futureVisits (⟨eN, rnN, parts, .normal, [], rN⟩ : Ctx) n
                (advance
                  (pushE
                    { st with trace := st.trace ++ [.atPart st.current],
                              asks := st.asks + 1 }
                    (.researcherDecision (some (rN st.asks))))
                  (some (rN st.asks))) := by
            rw [futureVisits_succ, hiterN]
          obtain ⟨rest2, hfh⟩ := futureVisits_head _ n _ s hrun
          rw [hfut, hfh] at hdec
          obtain ⟨qq, hq1, hq2⟩ :=
            pieces_at oldPath (visitedNames stR.trace) _ st.current hdec
          have hq1' : oldPath.get? stR.pathIndex = some qq := by rw [hk]; exact hq1
          obtain ⟨qq2, hq1s, hq2s⟩ :=
            pieces_at_succ oldPath (visitedNames stR.trace) _ st.current _ hdec
          have hpassR : ∀ q,
              (⟨eR, rnR, parts, .rerun, oldPath, rR⟩ : Ctx).oldPath.get?
                stR.pathIndex = some q →
              q.part_name = stR.current := by
            intro q hqe
            rw [show (⟨eR, rnR, parts, .rerun, oldPath, rR⟩ : Ctx).oldPath = oldPath
              from rfl, hq1'] at hqe
            injection hqe with hqq
            rw [← hqq, hq2, hcur]
          have hlenR : (visitedNames stR.trace).length + 2 ≤ oldPath.length := by
            have := congrArg List.length hdec
            simp at this
            omega
          have hundR : stR.current = none ∨ ∃ nm',
              stR.current = some nm' ∧
              lookupPart (⟨eR, rnR, parts, .rerun, oldPath, rR⟩ : Ctx) nm' = none :=
            Or.inl (hcur.trans hcc)
          have hltR : stR.pathIndex + 1 <
              (⟨eR, rnR, parts, .rerun, oldPath, rR⟩ : Ctx).oldPath.length := by
            show stR.pathIndex + 1 < oldPath.length
            rw [hk]
            omega
          have hiterR : loopIter (⟨eR, rnR, parts, .rerun, oldPath, rR⟩ : Ctx) stR =
              .proceed (advance
                (pushE (pushE stR (.atPart stR.current))
                  (.researcherDecision (convertToShortName
                    (oldPath.getD (stR.pathIndex + 1) default).part_name)))
                (convertToShortName
                  (oldPath.getD (stR.pathIndex + 1) default).part_name)) := by
            rw [loopIter_pass _ _ hpassR]
            exact loopBody_undecided_replay _ _ (by rw [hcur]; exact hq)
              (by rw [hcur]; exact hd) hundR hltR
          have hgd : oldPath.getD (stR.pathIndex + 1) default = qq2 := by
            apply getD_of_get?
            rw [hk]
            exact hq1s
          have hnext : convertToShortName
              (oldPath.getD (stR.pathIndex + 1) default).part_name =
              some (rN st.asks) := by
            rw [hgd, hq2s]
            show convertToShortName
              (convertToFullName (some (rN st.asks)) st.flowStack) = some (rN st.asks)
            exact shortName_fullName _ _ (hv st.asks)
          rw [hnext] at hiterR
          have hvR' : visitedNames (advance
              (pushE (pushE stR (.atPart stR.current))
                (.researcherDecision (some (rN st.asks))))
              (some (rN st.asks))).trace =
              visitedNames stR.trace ++ [st.current] := by
            rw [advance_trace, pushE_trace, pushE_trace, List.append_assoc,
              visitedNames_append, hcur]
            rfl
          obtain ⟨sR, hrunR, hvisR, hasksR⟩ := ih _ (advance
              (pushE (pushE stR (.atPart stR.current))
                (.researcherDecision (some (rN st.asks))))
              (some (rN st.asks))) s hrun
            (by rw [advance_committed, advance_committed, pushE_committed,
                  pushE_committed, pushE_committed]
                exact hc)
            (by rw [advance_flowStack, advance_flowStack, pushE_flowStack,
                  pushE_flowStack, pushE_flowStack]
                exact hf)
            (by rw [advance_current, advance_current, pushE_flowStack,
                  pushE_flowStack, pushE_flowStack, hf])
            (by rw [hvR', hfh, List.append_assoc]
                simpa using hdec)
            (by rw [hvR', advance_pathIndex, pushE_pathIndex, pushE_pathIndex,
                  List.length_append, hk]
                rfl)
          refine ⟨sR, ?_, ?_, ?_⟩
          · show runLoop _ (n + 1) stR = _
            unfold runLoop
            rw [hiterR]
            exact hrunR
          · rw [hfut, hvisR, hvR', hfh]
            simp
          · rw [hasksR, advance_asks, pushE_asks, pushE_asks]

/-- The initial trace of a run holds no at_part entries. -/
theorem mkInitSt_visited (cfg : Config) (rn : Nat) (parts : List (String × Part))
    (addEntries : List TEntry)
    (hcp : constructParts cfg.registry cfg.partSpecs = .ok (parts, addEntries)) :
    visitedNames (mkInitSt cfg rn addEntries).trace = [] := by
  show visitedNames (addEntries ++
    [.experimentBegin cfg.experimentName rn cfg.initialValues]) = []
  rw [visitedNames_append,
    (constructParts_entries cfg.registry cfg.partSpecs parts addEntries hcp).2]
  rfl

/-- C3: replaying the trace of a completed normal-mode run in rerun
mode (same configuration, deterministic parts) completes, visits
exactly the same ordered sequence of at_part names, never prompts the
researcher, and stops after replaying the terminal quit command. -/
theorem c3_rerun_replays (cfg : Config) (rnN rnR : Nat) (rN rR : Nat → String)
    (fuel : Nat) (file : FileSt) (s : LoopSt)
    (hv : ValidOracle rN)
    (h : runExperiment cfg .normal rnN none rN fuel = (file, .ok s)) :
    ∃ sR, runExperiment cfg .rerun rnR (some (partPath s.trace)) rR fuel =
      (⟨true, true, true⟩, .ok sR) ∧
      visitedNames sR.trace = visitedNames s.trace ∧
      sR.asks = 0 := by
  unfold runExperiment at h
  simp only [] at h
  unfold runFromConstruction at h
  cases hcp : constructParts cfg.registry cfg.partSpecs with
  | error e => rw [hcp] at h; cases h
  | ok pe =>
    obtain ⟨parts', addEntries⟩ := pe
    rw [hcp] at h
    simp only [] at h
    cases hrl : runLoop (mkCtx cfg .normal rnN ((none : Option (List Piece)).getD [])
        rN parts') fuel (mkInitSt cfg rnN addEntries) with
    | finished sfin =>
      rw [hrl] at h
      simp only [Prod.mk.injEq, RunOutcome.ok.injEq] at h
      obtain ⟨-, hs⟩ := h
      subst hs
      have hvisN :
          visitedNames sfin.trace =
            visitedNames (mkInitSt cfg rnN addEntries).trace ++
              futureVisits (mkCtx cfg .normal rnN [] rN parts') fuel
                (mkInitSt cfg rnN addEntries) :=
        runLoop_visits _ fuel _ sfin hrl
      rw [mkInitSt_visited cfg rnN parts' addEntries hcp, List.nil_append] at hvisN
      have hdec : (partPath sfin.trace).map Piece.part_name =
          visitedNames (mkInitSt cfg rnR addEntries).trace ++
            futureVisits (mkCtx cfg .normal rnN [] rN parts') fuel
              (mkInitSt cfg rnN addEntries) := by
        rw [partPath_map_name, mkInitSt_visited cfg rnR parts' addEntries hcp,
          List.nil_append]
        exact hvisN
      obtain ⟨sR, hrunR, hvisR, hasksR⟩ :=
        rerun_sim parts' cfg.experimentName cfg.experimentName rnN rnR rN rR
          (partPath sfin.trace) hv fuel
          (mkInitSt cfg rnN addEntries) (mkInitSt cfg rnR addEntries) sfin
          hrl rfl rfl rfl hdec
          (by rw [mkInitSt_visited cfg rnR parts' addEntries hcp]; rfl)
      refine ⟨sR, ?_, ?_, ?_⟩
      · show runExperiment cfg .rerun rnR (some (partPath sfin.trace)) rR fuel = _
        unfold runExperiment
        simp only []
        unfold runFromConstruction
        rw [hcp]
        simp only []
        have hrunR' : runLoop (mkCtx cfg .rerun rnR
            ((some (partPath sfin.trace)).getD []) rR parts') fuel
            (mkInitSt cfg rnR addEntries) = .finished sR := hrunR
        rw [hrunR']
      · rw [hvisR, mkInitSt_visited cfg rnR parts' addEntries hcp, List.nil_append]
        exact hvisN.symm
      · rw [hasksR]
        rfl
    | deviated e g sdev => rw [hrl] at h; simp at h
    | fuelOut sfo => rw [hrl] at h; simp at h

/-- Concrete instantiation of C3: rerunning the four-node scenario
trace reproduces its visit sequence with no researcher prompts. -/
theorem c3_witness :
    ∃ s sR, runExperiment c8cfg .normal 1 none (fun _ => "quit") 20 =
        (⟨true, true, true⟩, .ok s) ∧
      runExperiment c8cfg .rerun 2 (some (partPath s.trace)) (fun _ => "quit") 20 =
        (⟨true, true, true⟩, .ok sR) ∧
      visitedNames sR.trace = visitedNames s.trace ∧ sR.asks = 0 := by
  obtain ⟨sR, h1, h2, h3⟩ := c3_rerun_replays c8cfg 1 2 (fun _ => "quit")
    (fun _ => "quit") 20 _ _ (fun n => Or.inl (Or.inr rfl)) rfl
  exact ⟨_, sR, rfl, h1, h2, h3⟩

/-- C8 amended: the scenario run produces exactly the claimed sequence
at_part(start), step(start), at_part(ask), decision(ask routed to b),
at_part(b), step(b), at_part(quit), experiment_end — preceded by the
three part_add entries of construction and the experiment_begin
entry. -/
theorem c8_scenario_trace :
    ∃ s, runExperiment c8cfg .normal 1 none (fun _ => "quit") 20 =
      (⟨true, true, true⟩, .ok s) ∧
      s.trace =
        [.partAdd "start" "f.toml" .null "step",
         .partAdd "ask" "f.toml" .null "decision",
         .partAdd "b" "f.toml" .null "step",
         .experimentBegin "exp" 1 []] ++ c8claimed := by
  exact ⟨_, rfl, rfl⟩

/-- C10: running a Decision or Flow part through the engine leaves the
committed experiment data unchanged, whether its decide_route or
begin_flow call succeeds or raises. -/
theorem c10_route_only_frame (ctx : Ctx) (nm : String) (st : LoopSt)
    (p : Part) (hp : lookupPart ctx nm = some p) (h : routeOnly p.kind) :
    (runPart ctx nm st).2.committed = st.committed := by
  unfold runPart
  rw [hp]
  obtain ⟨k, np⟩ := p
  cases k with
  | step run => exact absurd h (by simp [routeOnly])
  | decision dec => cases hr : dec st.committed with
    | ok v => obtain ⟨a, b⟩ := v; simp [hr, pushE]
    | error e => simp [hr, pushE]
  | flow beg fin => cases hr : beg st.committed with
    | ok v => obtain ⟨a, b⟩ := v; simp [hr, pushE]
    | error e => simp [hr, pushE]

/-- Concrete instantiation of C10 at a succeeding decision and a raising
flow. -/
theorem c10_witness :
    (runPart
      ⟨"e", 1, [("d", ⟨.decision (fun _ => .ok (some "r", none)), [("r", "x")]⟩)],
        .normal, [], fun _ => "quit"⟩ "d"
      { committed := [("k", .num 7)], flowStack := [], trace := [], asks := 0,
        pathIndex := 0, current := some "d" }).2.committed = [("k", .num 7)] ∧
    (runPart
      ⟨"e", 1, [("f", ⟨.flow (fun _ => .error "boom") (fun _ => .ok none), []⟩)],
        .normal, [], fun _ => "quit"⟩ "f"
      { committed := [("k", .num 7)], flowStack := [], trace := [], asks := 0,
        pathIndex := 0, current := some "f" }).2.committed = [("k", .num 7)] := by
  constructor
  · exact c10_route_only_frame _ "d" _ _ rfl trivial
  · exact c10_route_only_frame _ "f" _ _ rfl trivial

theorem dval_dchar : ∀ d < 10, dval (dchar d) = some d := by decide

theorem read2_pad2 (n : Nat) (hn : n < 100) (rest : List Char) :
    read2 (pad2 n ++ rest) = some (n, rest) := by
  have h1 : n / 10 < 10 := by omega
  have h2 : n % 10 < 10 := by omega
  show read2 (dchar (n / 10) :: dchar (n % 10) :: rest) = some (n, rest)
  unfold read2
  simp only []
  rw [dval_dchar _ h1, dval_dchar _ h2]
  simp only [Option.some.injEq, Prod.mk.injEq]
  constructor
  · omega
  · trivial

theorem read4_pad4 (n : Nat) (hn : n < 10000) (rest : List Char) :
    read4 (pad4 n ++ rest) = some (n, rest) := by
  unfold read4 pad4
  rw [List.append_assoc, read2_pad2 (n / 100) (by omega)]
  simp only []
  rw [read2_pad2 (n % 100) (by omega)]
  simp only [Option.some.injEq, Prod.mk.injEq]
  constructor
  · omega
  · trivial

theorem read6_pad6 (n : Nat) (hn : n < 1000000) (rest : List Char) :
    read6 (pad6 n ++ rest) = some (n, rest) := by
  unfold read6 pad6
  rw [List.append_assoc, List.append_assoc, read2_pad2 (n / 10000) (by omega)]
  simp only []
  rw [read2_pad2 (n / 100 % 100) (by omega)]
  simp only []
  rw [read2_pad2 (n % 100) (by omega)]
  simp only [Option.some.injEq, Prod.mk.injEq]
  constructor
  · omega
  · trivial

theorem expectC_cons (c : Char) (rest : List Char) :
    expectC c (c :: rest) = some rest := by
  unfold expectC
  simp

/-- The timestamp rendering round trip. -/
theorem fromiso_iso (dt : DateTime) (h : ValidDT dt) :
    fromisoformat (isoformat dt) = some dt := by
  obtain ⟨y, mo, d, hr, mi, s, us⟩ := dt
  obtain ⟨hy, hmo, hd, hh, hmi, hs, hus⟩ := h
  show fromisoformatL (isoformatL ⟨y, mo, d, hr, mi, s, us⟩) =
    some ⟨y, mo, d, hr, mi, s, us⟩
  unfold isoformatL fromisoformatL
  by_cases hz : us = 0
  · rw [if_pos hz]
    simp only [List.append_assoc, List.cons_append, read4_pad4 _ hy, expectC_cons,
      read2_pad2 _ hmo, read2_pad2 _ hd, read2_pad2 _ hh, read2_pad2 _ hmi,
      read2_pad2 _ hs]
    rw [hz]
  · rw [if_neg hz]
    have h6 : read6 (pad6 us) = some (us, []) := by
      have h0 := read6_pad6 us hus []
      rwa [List.append_nil] at h0
    simp only [List.append_assoc, List.cons_append, read4_pad4 _ hy, expectC_cons,
      read2_pad2 _ hmo, read2_pad2 _ hd, read2_pad2 _ hh, read2_pad2 _ hmi,
      read2_pad2 _ hs, h6]
    simp only [if_true]

set_option maxHeartbeats 2000000 in
/-- C9: for every trace entry variant, serializing the entry to its
JSON object as the writer records it and parsing that object back as
the reader does yields the original entry, all fields and the ISO-8601
timestamp included. -/
theorem c9_entry_round_trip (e : TraceEntryS) (h : WFEntry e) :
    parseEntry (entryToJson e) = some e := by
  obtain ⟨hts, hcat⟩ := h
  cases e with
  | experimentBegin ts en rn ed =>
    simp [parseEntry, entryToJson, getData, asStr, asInt, asObj,
      fromiso_iso ts hts]
  | experimentEnd ts en rn =>
    simp [parseEntry, entryToJson, getData, asStr, asInt,
      fromiso_iso ts hts]
  | atPart ts pn =>
    cases pn <;>
      simp [parseEntry, entryToJson, getData, asStr, asStrO, strOptJ,
        fromiso_iso ts hts]
  | error ts pn msg =>
    simp [parseEntry, entryToJson, getData, asStr, fromiso_iso ts hts]
  | researcherDecision ts np =>
    cases np <;>
      simp [parseEntry, entryToJson, getData, asStr, asStrO, strOptJ,
        fromiso_iso ts hts]
  | step ts sn db da pd =>
    cases pd <;>
      simp [parseEntry, entryToJson, getData, asStr, asObj, asObjO, optJ,
        fromiso_iso ts hts]
  | decision ts dn np pd =>
    cases np <;> cases pd <;>
      simp [parseEntry, entryToJson, getData, asStr, asStrO, asObjO,
        strOptJ, optJ, fromiso_iso ts hts]
  | flowBegin ts fn fp pd =>
    cases fp <;> cases pd <;>
      simp [parseEntry, entryToJson, getData, asStr, asStrO, asObjO,
        strOptJ, optJ, fromiso_iso ts hts]
  | flowEnd ts fn pd =>
    cases pd <;>
      simp [parseEntry, entryToJson, getData, asStr, asObjO, optJ,
        fromiso_iso ts hts]
  | partAdd ts fn fp rc pc =>
    simp [parseEntry, entryToJson, getData, asStr, asObj,
      fromiso_iso ts hts]
    have hc : pc = "step" ∨ pc = "decision" ∨ pc = "flow" := hcat
    intro h1 h2
    rcases hc with h | h | h
    · exact absurd h h1
    · exact absurd h h2
    · exact h
  | partRemove ts fn =>
    simp [parseEntry, entryToJson, getData, asStr, fromiso_iso ts hts]
  | custom ts et ed =>
    cases ed <;>
      simp [parseEntry, entryToJson, getData, asStr, asObjN, optJ,
        fromiso_iso ts hts]

theorem c9_witness :
    (WFEntry c9ent ∧ parseEntry (entryToJson c9ent) = some c9ent) ∧
    (WFEntry c9entNull ∧
      parseEntry (entryToJson c9entNull) = some c9entNull) :=
  have hw : WFEntry c9ent :=
    ⟨⟨by decide, by decide, by decide, by decide, by decide, by decide,
      by decide⟩, trivial⟩
  have hn : WFEntry c9entNull :=
    ⟨⟨by decide, by decide, by decide, by decide, by decide, by decide,
      by decide⟩, trivial⟩
  ⟨⟨hw, c9_entry_round_trip c9ent hw⟩,
   ⟨hn, c9_entry_round_trip c9entNull hn⟩⟩

end Workflow
